import Mathlib

/-!
Verification of the Color-Wheel color-science core.

The TypeScript source is shallowly embedded over `ℝ` (JS numbers are
idealized as real numbers; `Math.pow`, `Math.sqrt`, `Math.atan2` become
`Real.rpow`, `Real.sqrt` and `Complex.arg`).  JS's `NaN`-signalling
(`xyzToXyY`, `xyzToUvPrime`, `cctMcCamyFromXy`) is embedded with `Option ℝ`,
`none` standing for a non-finite value.  `%` is JS remainder (`jsMod`),
`Math.round` is `jsRound`, `Math.floor`/`Math.trunc` are `Int.floor`/`jsTrunc`.
-/

open scoped Classical

noncomputable section

-- ==================== Math primitives (src/utils/colorMath.ts) ====================

/-- `clamp01(v) = Math.min(1, Math.max(0, v))`. -/
def clamp01 (v : ℝ) : ℝ := min 1 (max 0 v)

/-- Truncation toward zero, as JS division semantics use. -/
def jsTrunc (x : ℝ) : ℤ := if 0 ≤ x then ⌊x⌋ else ⌈x⌉

/-- JS remainder operator `a % b` (sign of the dividend, for finite `b ≠ 0`). -/
def jsMod (a b : ℝ) : ℝ := a - b * (jsTrunc (a / b) : ℝ)

/-- `Math.round`: round half toward positive infinity. -/
def jsRound (x : ℝ) : ℤ := ⌊x + 1 / 2⌋

/-- `Math.cbrt`, including its behavior on negative arguments. -/
def jsCbrt (x : ℝ) : ℝ := if 0 ≤ x then x ^ ((1 : ℝ) / 3) else -((-x) ^ ((1 : ℝ) / 3))

/-- JS `String.prototype.toLowerCase()` (ASCII case folding suffices for hex strings). -/
def jsToLower (s : String) : String := String.mk (s.data.map Char.toLower)

/-- `Math.atan2(y, x)`, embedded as the argument of the complex number `x + y*I`. -/
def jsAtan2 (y x : ℝ) : ℝ := Complex.arg ⟨x, y⟩

/-- `degNorm(d) = ((d % 360) + 360) % 360`. -/
def degNorm (d : ℝ) : ℝ := jsMod (jsMod d 360 + 360) 360

/-- `lerp(a, b, t) = a + (b - a) * t`. -/
def lerp (a b t : ℝ) : ℝ := a + (b - a) * t

-- ==================== Color data model (src/types.ts) ====================

/-- RGB color, 0-255 per channel. -/
structure RGB where
  r : ℝ
  g : ℝ
  b : ℝ

/-- HSL color: hue in degrees, s and l in [0,1]. -/
structure HSL where
  h : ℝ
  s : ℝ
  l : ℝ

/-- HSV color. -/
structure HSV where
  h : ℝ
  s : ℝ
  v : ℝ

/-- HWB color. -/
structure HWB where
  h : ℝ
  w : ℝ
  b : ℝ

/-- CMYK color, all components in [0,1]. -/
structure CMYK where
  c : ℝ
  m : ℝ
  y : ℝ
  k : ℝ

/-- Linear (gamma-decoded) RGB, 0-1 per channel. -/
structure LinearRGB where
  r : ℝ
  g : ℝ
  b : ℝ

/-- CIE XYZ (D65). -/
structure XYZ where
  X : ℝ
  Y : ℝ
  Z : ℝ

/-- CIE xyY chromaticity; `none` in x/y embeds the JS `NaN` of the degenerate case. -/
structure XyY where
  x : Option ℝ
  y : Option ℝ
  Y : ℝ

/-- CIE 1976 u'v' chromaticity; `none` embeds `NaN`. -/
structure UVPrime where
  u : Option ℝ
  v : Option ℝ

/-- CIE Lab (D65). -/
structure Lab where
  L : ℝ
  a : ℝ
  b : ℝ

/-- CIE LCH. -/
structure LCH where
  L : ℝ
  C : ℝ
  h : ℝ

/-- OKLab. -/
structure OKLab where
  L : ℝ
  a : ℝ
  b : ℝ

/-- OKLCH. -/
structure OKLCH where
  L : ℝ
  C : ℝ
  h : ℝ

-- ==================== HSL/HSV/HWB conversions (src/utils/colorConversions.ts) ====

/-- The hue computation duplicated verbatim inside `rgbToHsl` (lines 79-86) and
`rgbToHsv` (lines 106-113); inputs are the channel values already divided by 255. -/
def hueOf (rr gg bb : ℝ) : ℝ :=
  let mx := max rr (max gg bb)
  let mn := min rr (min gg bb)
  let d := mx - mn
  if d = 0 then 0
  else
    let h1 :=
      if mx = rr then jsMod ((gg - bb) / d) 6
      else if mx = gg then (bb - rr) / d + 2
      else (rr - gg) / d + 4
    let h2 := h1 * 60
    if h2 < 0 then h2 + 360 else h2

/-- Final per-channel step of `hslToRgb`: `Math.min(255, Math.max(0, Math.round(v * 255)))`. -/
def byteOf (v : ℝ) : ℝ := min 255 (max 0 ((jsRound (v * 255) : ℤ) : ℝ))

/-- Pre-rounding sector computation shared by the chroma/hue-prime constructions:
given hue `h` (degrees), chroma `C` and offset `m`, produce the three raw channel
values `(r1 + m, g1 + m, b1 + m)` exactly as `hslToRgb` (source lines 28-55) does. -/
def sectorPre (h C m : ℝ) : ℝ × ℝ × ℝ :=
  let hh := jsMod h 360 / 60
  let X := C * (1 - |jsMod hh 2 - 1|)
  let t3 : ℝ × ℝ × ℝ :=
    if 0 ≤ hh ∧ hh < 1 then (C, X, 0)
    else if 1 ≤ hh ∧ hh < 2 then (X, C, 0)
    else if 2 ≤ hh ∧ hh < 3 then (0, C, X)
    else if 3 ≤ hh ∧ hh < 4 then (0, X, C)
    else if 4 ≤ hh ∧ hh < 5 then (X, 0, C)
    else (C, 0, X)
  (t3.1 + m, t3.2.1 + m, t3.2.2 + m)

/-- Sector computation followed by rounding and clamping of each channel. -/
def sectorRgb (h C m : ℝ) : RGB :=
  ⟨byteOf (sectorPre h C m).1, byteOf (sectorPre h C m).2.1, byteOf (sectorPre h C m).2.2⟩

/-- `hslToRgb(h, s, l)` (source lines 27-65): standard chroma/hue-prime construction. -/
def hslToRgb (h s l : ℝ) : RGB :=
  let C := (1 - |2 * l - 1|) * s
  sectorRgb h C (l - C / 2)

/-- Modelled from the spec: `hsvToRgb` does not exist in the source; the spec's
round-trip property (§8, `RGB→HSV→RGB` within ±1) presupposes the standard
chroma/hue-prime HSV inverse with `C = v*s` and `m = v - C`, which is what is
embedded here. -/
def hsvToRgb (h s v : ℝ) : RGB :=
  let C := v * s
  sectorRgb h C (v - C)

/-- `rgbToHsl(r, g, b)` (source lines 70-92). -/
def rgbToHsl (r g b : ℝ) : HSL :=
  let rr := r / 255
  let gg := g / 255
  let bb := b / 255
  let mx := max rr (max gg bb)
  let mn := min rr (min gg bb)
  let d := mx - mn
  let l := (mx + mn) / 2
  ⟨hueOf rr gg bb, if d = 0 then 0 else d / (1 - |2 * l - 1|), l⟩

/-- `rgbToHsv(r, g, b)` (source lines 97-119). -/
def rgbToHsv (r g b : ℝ) : HSV :=
  let rr := r / 255
  let gg := g / 255
  let bb := b / 255
  let mx := max rr (max gg bb)
  let mn := min rr (min gg bb)
  let d := mx - mn
  ⟨hueOf rr gg bb, if mx = 0 then 0 else d / mx, mx⟩

/-- `rgbToHwb(r, g, b)` (source lines 124-134). -/
def rgbToHwb (r g b : ℝ) : HWB :=
  let rr := r / 255
  let gg := g / 255
  let bb := b / 255
  let mx := max rr (max gg bb)
  let mn := min rr (min gg bb)
  ⟨(rgbToHsv r g b).h, mn, 1 - mx⟩

/-- `rgbToCmyk(r, g, b)` (source lines 139-157). -/
def rgbToCmyk (r g b : ℝ) : CMYK :=
  let rr := r / 255
  let gg := g / 255
  let bb := b / 255
  let k := 1 - max rr (max gg bb)
  if 1 - 1e-12 ≤ k then ⟨0, 0, 0, 1⟩
  else
    ⟨clamp01 ((1 - rr - k) / (1 - k)), clamp01 ((1 - gg - k) / (1 - k)),
      clamp01 ((1 - bb - k) / (1 - k)), clamp01 k⟩

-- ==================== Linear RGB / sRGB ====================

/-- `srgbToLinear(u8)` (source lines 164-167). -/
def srgbToLinear (u8 : ℝ) : ℝ :=
  let u := u8 / 255
  if u ≤ 0.04045 then u / 12.92 else ((u + 0.055) / 1.055) ^ (2.4 : ℝ)

/-- `linearToSrgb(L)` (source lines 172-175). -/
def linearToSrgb (L : ℝ) : ℝ :=
  let u := if L ≤ 0.0031308 then 12.92 * L else 1.055 * L ^ ((1 : ℝ) / 2.4) - 0.055
  ((jsRound (clamp01 u * 255) : ℤ) : ℝ)

/-- `rgbToLinearRgb(r, g, b)` (source lines 180-186). -/
def rgbToLinearRgb (r g b : ℝ) : LinearRGB :=
  ⟨srgbToLinear r, srgbToLinear g, srgbToLinear b⟩

/-- `mixLinearRGB(a, b, t)` (source lines 191-205): decode to linear, lerp, re-encode. -/
def mixLinearRGB (a b : RGB) (t : ℝ) : RGB :=
  let la := rgbToLinearRgb a.r a.g a.b
  let lb := rgbToLinearRgb b.r b.g b.b
  ⟨linearToSrgb (la.r + (lb.r - la.r) * t),
   linearToSrgb (la.g + (lb.g - la.g) * t),
   linearToSrgb (la.b + (lb.b - la.b) * t)⟩

-- ==================== CIE XYZ (D65) and derived spaces ====================

/-- `rgbToXyzD65(r, g, b)` (source lines 212-222). -/
def rgbToXyzD65 (r g b : ℝ) : XYZ :=
  let R := srgbToLinear r
  let G := srgbToLinear g
  let B := srgbToLinear b
  ⟨0.4124564 * R + 0.3575761 * G + 0.1804375 * B,
   0.2126729 * R + 0.7151522 * G + 0.072175 * B,
   0.0193339 * R + 0.119192 * G + 0.9503041 * B⟩

/-- `xyzToXyY(xyz)` (source lines 227-232); the `NaN` pair is embedded as `none`. -/
def xyzToXyY (xyz : XYZ) : XyY :=
  let d := xyz.X + xyz.Y + xyz.Z
  if d ≤ 1e-12 then ⟨none, none, xyz.Y⟩
  else ⟨some (xyz.X / d), some (xyz.Y / d), xyz.Y⟩

/-- `xyzToUvPrime(xyz)` (source lines 237-242). -/
def xyzToUvPrime (xyz : XYZ) : UVPrime :=
  let d := xyz.X + 15 * xyz.Y + 3 * xyz.Z
  if d ≤ 1e-12 then ⟨none, none⟩
  else ⟨some (4 * xyz.X / d), some (9 * xyz.Y / d)⟩

/-- `cctMcCamyFromXy(x, y)` (source lines 247-251): non-finite input (`none`)
short-circuits to `NaN` (`none`) before the cubic formula. -/
def cctMcCamyFromXy (x y : Option ℝ) : Option ℝ :=
  match x, y with
  | some a, some b =>
    let n := (a - 0.332) / (0.1858 - b)
    some (449 * n ^ 3 + 3525 * n ^ 2 + 6823.3 * n + 5520.33)
  | _, _ => none

/-- The piecewise CIE `f` used by `xyzToLabD65` (source lines 255-259). -/
def fLab (t : ℝ) : ℝ :=
  let d : ℝ := 6 / 29
  let d3 := d * d * d
  if d3 < t then jsCbrt t else t / (3 * d * d) + 4 / 29

/-- `xyzToLabD65(xyz)` (source lines 264-278). -/
def xyzToLabD65 (xyz : XYZ) : Lab :=
  let fx := fLab (xyz.X / 0.95047)
  let fy := fLab (xyz.Y / 1.0)
  let fz := fLab (xyz.Z / 1.08883)
  ⟨116 * fy - 16, 500 * (fx - fy), 200 * (fy - fz)⟩

/-- `labToLch(lab)` (source lines 283-289). -/
def labToLch (lab : Lab) : LCH :=
  ⟨lab.L, Real.sqrt (lab.a * lab.a + lab.b * lab.b),
    jsMod (jsAtan2 lab.b lab.a * 180 / Real.pi + 360) 360⟩

/-- `deltaE76(lab1, lab2)` (source lines 294-299). -/
def deltaE76 (lab1 lab2 : Lab) : ℝ :=
  Real.sqrt ((lab1.L - lab2.L) * (lab1.L - lab2.L) + (lab1.a - lab2.a) * (lab1.a - lab2.a) +
    (lab1.b - lab2.b) * (lab1.b - lab2.b))

/-- `rgbToOklab(r, g, b)` (source lines 306-324). -/
def rgbToOklab (r g b : ℝ) : OKLab :=
  let lr := srgbToLinear r
  let lg := srgbToLinear g
  let lb := srgbToLinear b
  let l := 0.4122214708 * lr + 0.5363325363 * lg + 0.0514459929 * lb
  let m := 0.2119034982 * lr + 0.6806995451 * lg + 0.1073969566 * lb
  let s := 0.0883024619 * lr + 0.2817188376 * lg + 0.6299787005 * lb
  let l2 := jsCbrt l
  let m2 := jsCbrt m
  let s2 := jsCbrt s
  ⟨0.2104542553 * l2 + 0.793617785 * m2 - 0.0040720468 * s2,
   1.9779984951 * l2 - 2.428592205 * m2 + 0.4505937099 * s2,
   0.0259040371 * l2 + 0.7827717662 * m2 - 0.808675766 * s2⟩

/-- `oklabToOklch(oklab)` (source lines 329-335). -/
def oklabToOklch (ok : OKLab) : OKLCH :=
  ⟨ok.L, Real.sqrt (ok.a * ok.a + ok.b * ok.b),
    jsMod (jsAtan2 ok.b ok.a * 180 / Real.pi + 360) 360⟩

/-- `relLuminanceWcagFromY(Y)` (source lines 342-344). -/
def relLuminanceWcagFromY (Y : ℝ) : ℝ := clamp01 Y

/-- `contrastRatio(L1, L2)` (source lines 349-353). -/
def contrastRatio (L1 L2 : ℝ) : ℝ := (max L1 L2 + 0.05) / (min L1 L2 + 0.05)

-- ==================== Wheel geometry (src/constants/wheelModel.ts) ====================

/-- Offscreen canvas side length. -/
def OFF_SIZE : ℝ := 1600

namespace MODEL

/-- Wheel center x. -/
def cx : ℝ := OFF_SIZE / 2

/-- Wheel center y. -/
def cy : ℝ := OFF_SIZE / 2

/-- Outer radius of the color area. -/
def R_color : ℝ := OFF_SIZE * 0.44

/-- Inner radius (center hole). -/
def R_inner : ℝ := OFF_SIZE * 0.18

end MODEL

-- ==================== Wheel renderer geometry (src/lib/wheelRenderer.ts) ==========

/-- `thetaDegFromXY(x, y)` (renderer lines 544-549): angle in degrees from the wheel
center, 0° at top, increasing clockwise. -/
def thetaDegFromXY (x y : ℝ) : ℝ :=
  let dx := x - MODEL.cx
  let dy := y - MODEL.cy
  let rad := jsAtan2 dx (-dy)
  jsMod (rad * 180 / Real.pi + 360) 360

/-- `radiusFromXY(x, y)` (renderer lines 554-558). -/
def radiusFromXY (x y : ℝ) : ℝ :=
  let dx := x - MODEL.cx
  let dy := y - MODEL.cy
  Real.sqrt (dx * dx + dy * dy)

/-- Color-with-position record returned by `wheelColorAt`. -/
structure WheelColor where
  theta : ℝ
  r : ℝ
  f : ℝ
  rgb : RGB

/-- `wheelColorAt(x, y)` (renderer lines 580-600); `null` outside the band is `none`. -/
def wheelColorAt (x y : ℝ) : Option WheelColor :=
  let r := radiusFromXY x y
  if MODEL.R_color < r ∨ r < MODEL.R_inner then none
  else
    let f := clamp01 ((r - MODEL.R_inner) / (MODEL.R_color - MODEL.R_inner))
    let theta := thetaDegFromXY x y
    let s := clamp01 (f ^ (1.25 : ℝ))
    let l := clamp01 (0.92 - 0.42 * f ^ (0.85 : ℝ))
    let outerBoost := if 0.84 < f then (f - 0.84) / (1 - 0.84) else 0
    let s2 := clamp01 (s + 0.22 * outerBoost)
    let l2 := clamp01 (l - 0.06 * outerBoost)
    some ⟨theta, r, f, hslToRgb theta s2 l2⟩

-- ==================== Harmonies (src/utils/harmonies.ts) ====================

/-- The five harmony kinds (stable string identifiers in the source). -/
inductive HarmonyType where
  | Complementary
  | SplitComplementary
  | Analogous
  | Triadic
  | Tetradic

/-- Label/angle pair returned by `harmonyAngles`. -/
structure HarmonyAngle where
  label : String
  a : ℝ

/-- `harmonyAngles(theta, type)` (harmonies source lines 11-51). -/
def harmonyAngles (theta : ℝ) (type : HarmonyType) : List HarmonyAngle :=
  let t := degNorm theta
  match type with
  | .Complementary =>
    [⟨"Base", t⟩, ⟨"Comp", degNorm (t + 180)⟩]
  | .SplitComplementary =>
    [⟨"Base", t⟩, ⟨"Split-1", degNorm (t + 180 - 30)⟩, ⟨"Split-2", degNorm (t + 180 + 30)⟩]
  | .Analogous =>
    [⟨"Ana-1", degNorm (t - 30)⟩, ⟨"Base", t⟩, ⟨"Ana-2", degNorm (t + 30)⟩]
  | .Triadic =>
    [⟨"Tri-1", t⟩, ⟨"Tri-2", degNorm (t + 120)⟩, ⟨"Tri-3", degNorm (t + 240)⟩]
  | .Tetradic =>
    [⟨"Tet-1", t⟩, ⟨"Tet-2", degNorm (t + 60)⟩, ⟨"Tet-3", degNorm (t + 180)⟩,
      ⟨"Tet-4", degNorm (t + 240)⟩]

-- ==================== Artist descriptors (src/utils/artistDescriptors.ts) =========

/-- The 16 hue family names. -/
def HUE_NAMES : List String :=
  ["Red", "Red-Orange", "Orange", "Yellow-Orange", "Yellow", "Yellow-Green", "Green",
   "Blue-Green", "Cyan", "Blue-Cyan", "Blue", "Blue-Violet", "Violet", "Red-Violet",
   "Magenta", "Rose"]

/-- `hueName(theta)`: 16 bins of 22.5° with an 11.25° offset. -/
def hueName (theta : ℝ) : String :=
  let t := degNorm theta
  HUE_NAMES.getD ((⌊(t + 11.25) / 22.5⌋ % 16).toNat) "Red"

/-- `temperatureLabel(theta)`: Warm / Cool / Neutral classification. -/
def temperatureLabel (theta : ℝ) : String :=
  let t := degNorm theta
  let warm := (315 ≤ t ∨ t < 120) ∧ ¬(75 ≤ t ∧ t < 105)
  let cool := 150 ≤ t ∧ t < 285
  if warm then "Warm" else if cool then "Cool" else "Neutral"

-- ==================== Hex formatting (src/utils/colorMath.ts) ====================

/-- One lowercase hexadecimal digit. -/
def hexDigit (n : ℕ) : Char := if n < 10 then Char.ofNat (48 + n) else Char.ofNat (87 + n)

/-- A byte as two lowercase hex digits (`toString(16).padStart(2, '0')`). -/
def byteHex (i : ℤ) : String :=
  let m := i.toNat
  String.mk [hexDigit (m / 16 % 16), hexDigit (m % 16)]

/-- `rgbToHex(r, g, b)`: `'#'` followed by the rounded channels in hex. -/
def rgbToHex (r g b : ℝ) : String :=
  "#" ++ byteHex (jsRound r) ++ byteHex (jsRound g) ++ byteHex (jsRound b)

-- ==================== Tints and shades (useColorWheel.ts lines 387-414) ==========

/-- One entry of the tint/shade ladder. -/
structure TintShadeStep where
  label : String
  rgb : RGB
  hex : String

/-- The first loop of `tints`: `for (let i = half; i >= 1; i--) arr.push(f i)`. -/
def rangeDown (f : ℕ → TintShadeStep) : ℕ → List TintShadeStep
  | 0 => []
  | k + 1 => f (k + 1) :: rangeDown f k

/-- The second loop of `tints`: `for (let i = 1; i <= half; i++) arr.push(f i)`. -/
def rangeUp (f : ℕ → TintShadeStep) : ℕ → List TintShadeStep
  | 0 => []
  | k + 1 => rangeUp f k ++ [f (k + 1)]

/-- The `tints` memo body (useColorWheel lines 387-414) for a present sample, with
the sample's rgb and hex passed in (the `!sample` early-out returns `[]` upstream). -/
def tintsList (base : RGB) (baseHex : String) (tintSteps : ℝ) : List TintShadeStep :=
  let white : RGB := ⟨255, 255, 255⟩
  let black : RGB := ⟨0, 0, 0⟩
  let steps := max 3 (min 11 tintSteps)
  let half := (⌊steps / 2⌋).toNat
  rangeDown
    (fun i =>
      let rgb := mixLinearRGB base white ((i : ℝ) / ((half : ℝ) + 1))
      ⟨"Tint " ++ toString i, rgb, rgbToHex rgb.r rgb.g rgb.b⟩) half
  ++ [⟨"Base", base, baseHex⟩]
  ++ rangeUp
    (fun i =>
      let rgb := mixLinearRGB base black ((i : ℝ) / ((half : ℝ) + 1))
      ⟨"Shade " ++ toString i, rgb, rgbToHex rgb.r rgb.g rgb.b⟩) half

-- ==================== Palette (useColorWheel.ts lines 417-488) ====================

/-- Saved palette swatch. -/
structure PaletteSwatch where
  id : String
  hex : String
  rgb : RGB
  hsl : HSL
  name : String

/-- The `setPalette` updater of `addToPalette` (lines 427-430): skip case-insensitive
hex duplicates, else prepend and truncate to 24.  The swatch construction itself
(`Date.now()`/`Math.random()` id, display name) is environment-dependent, so the
built swatch is taken as input. -/
def paletteAdd (sw : PaletteSwatch) (prev : List PaletteSwatch) : List PaletteSwatch :=
  if prev.any (fun p => jsToLower p.hex == jsToLower sw.hex) then prev
  else (sw :: prev).take 24

/-- The dedup loop of `addHarmonyToPalette` (lines 460-463): keep the first
occurrence of each case-insensitive hex, preserving order. -/
def dedupByHex (uniq : List PaletteSwatch) : List PaletteSwatch → List PaletteSwatch
  | [] => uniq
  | s :: rest =>
    if uniq.any (fun u => jsToLower u.hex == jsToLower s.hex) then dedupByHex uniq rest
    else dedupByHex (uniq ++ [s]) rest

/-- The `setPalette` updater of `addHarmonyToPalette` (lines 458-465): prepend the
new swatches, dedup keeping newest, truncate to 24. -/
def paletteAddHarmony (newSwatches prev : List PaletteSwatch) : List PaletteSwatch :=
  (dedupByHex [] (newSwatches ++ prev)).take 24

/-- The `setPalette` updater of `addTintToPalette` (lines 476-479), identical in
shape to `paletteAdd`. -/
def paletteAddTint (sw : PaletteSwatch) (prev : List PaletteSwatch) : List PaletteSwatch :=
  if prev.any (fun p => jsToLower p.hex == jsToLower sw.hex) then prev
  else (sw :: prev).take 24

/-- `removeSwatch` (lines 482-484). -/
def paletteRemove (id : String) (prev : List PaletteSwatch) : List PaletteSwatch :=
  prev.filter (fun p => p.id != id)

/-- `clearPalette` (lines 486-488). -/
def paletteClear : List PaletteSwatch := []

/-- The palette invariant claimed by the spec: at most 24 swatches, pairwise
distinct by case-insensitive hex. -/
def paletteInv (l : List PaletteSwatch) : Prop :=
  l.length ≤ 24 ∧ l.Pairwise (fun a b => jsToLower a.hex ≠ jsToLower b.hex)

-- ==================== Probe sampling (useColorWheel.ts lines 137-245) =============

/-- Point in 2D space. -/
structure Point where
  x : ℝ
  y : ℝ

/-- Canvas transform state. -/
structure WheelTransform where
  scale : ℝ
  dx : ℝ
  dy : ℝ
  dpr : ℝ
  w : ℝ
  h : ℝ

/-- Computed complement information (the `comp` field of a `Sample`). -/
structure ProbeComplement where
  theta : ℝ
  rgb : RGB
  hex : String
  lab : Lab
  lch : LCH
  dE76 : ℝ

/-- The full probe aggregate.  The display-only `cssRgb` string (`rgb(r g b)`,
a textual rendering of the `rgb` field) is not modelled. -/
structure Sample where
  xCanvas : ℝ
  yCanvas : ℝ
  xOff : ℝ
  yOff : ℝ
  theta : ℝ
  r : ℝ
  f : ℝ
  inside : Prop
  rgb : RGB
  hex : String
  hueLabel : String
  temp : String
  valueProxy : ℝ
  chromaProxy : ℝ
  hsl : HSL
  hsv : HSV
  hwb : HWB
  cmyk : CMYK
  linRgb : LinearRGB
  xyz : XYZ
  xyY : XyY
  uvp : UVPrime
  lab : Lab
  lch : LCH
  oklab : OKLab
  oklch : OKLCH
  relLum : ℝ
  contrastWhite : ℝ
  contrastBlack : ℝ
  cct : Option ℝ
  comp : Option ProbeComplement

/-- `canvasToOff` (lines 109-112). -/
def canvasToOff (t : WheelTransform) (pt : Point) : Point :=
  ⟨(pt.x - t.dx) / t.scale, (pt.y - t.dy) / t.scale⟩

/-- Clamp a rounded coordinate into the bitmap: `Math.max(0, Math.min(OFF_SIZE - 1, Math.round(v)))`. -/
def pixIndex (v : ℝ) : ℤ := max 0 (min 1599 (jsRound v))

/-- `sampleAtCanvas` (lines 137-245).  The offscreen-canvas pixel readback
(`readOffRgb` via `getImageData`) is the single external effect and is passed in
as `readRgb`; a missing 2D context (which makes the hook return `null`) is not
modelled, the context is assumed present. -/
def sampleAtCanvas (readRgb : ℤ → ℤ → RGB) (tf : WheelTransform) (ptCanvas : Point) :
    Option Sample :=
  let ptOff := canvasToOff tf ptCanvas
  if ptOff.x < 0 ∨ ptOff.y < 0 ∨ OFF_SIZE ≤ ptOff.x ∨ OFF_SIZE ≤ ptOff.y then none
  else
    let ix := pixIndex ptOff.x
    let iy := pixIndex ptOff.y
    let c := readRgb ix iy
    let rr := radiusFromXY ptOff.x ptOff.y
    let inside : Prop := rr ≤ MODEL.R_color ∧ MODEL.R_inner ≤ rr
    let theta := thetaDegFromXY ptOff.x ptOff.y
    let f := clamp01 ((rr - MODEL.R_inner) / (MODEL.R_color - MODEL.R_inner))
    let hex := rgbToHex c.r c.g c.b
    let hsl := rgbToHsl c.r c.g c.b
    let hsv := rgbToHsv c.r c.g c.b
    let hwb := rgbToHwb c.r c.g c.b
    let cmyk := rgbToCmyk c.r c.g c.b
    let linRgb := rgbToLinearRgb c.r c.g c.b
    let xyz := rgbToXyzD65 c.r c.g c.b
    let xyY := xyzToXyY xyz
    let uvp := xyzToUvPrime xyz
    let lab := xyzToLabD65 xyz
    let lch := labToLch lab
    let oklab := rgbToOklab c.r c.g c.b
    let oklch := oklabToOklch oklab
    let relLum := relLuminanceWcagFromY xyz.Y
    let comp : Option ProbeComplement :=
      if inside then
        let compTheta := jsMod (theta + 180) 360
        let rad := compTheta * Real.pi / 180
        let cdx := Real.sin rad
        let cdy := -Real.cos rad
        let cix := pixIndex (MODEL.cx + cdx * rr)
        let ciy := pixIndex (MODEL.cy + cdy * rr)
        let crgb := readRgb cix ciy
        let cxyz := rgbToXyzD65 crgb.r crgb.g crgb.b
        let clab := xyzToLabD65 cxyz
        some ⟨compTheta, crgb, rgbToHex crgb.r crgb.g crgb.b, clab, labToLch clab,
          deltaE76 lab clab⟩
      else none
    some
      { xCanvas := ptCanvas.x
        yCanvas := ptCanvas.y
        xOff := ptOff.x
        yOff := ptOff.y
        theta := theta
        r := rr
        f := f
        inside := inside
        rgb := c
        hex := hex
        hueLabel := hueName theta
        temp := temperatureLabel theta
        valueProxy := clamp01 (lab.L / 100) * 10
        chromaProxy := min 20 (lch.C / 8)
        hsl := hsl
        hsv := hsv
        hwb := hwb
        cmyk := cmyk
        linRgb := linRgb
        xyz := xyz
        xyY := xyY
        uvp := uvp
        lab := lab
        lch := lch
        oklab := oklab
        oklch := oklch
        relLum := relLum
        contrastWhite := contrastRatio 1 relLum
        contrastBlack := contrastRatio relLum 0
        cct := cctMcCamyFromXy xyY.x xyY.y
        comp := comp }

-- ==================== Helper lemmas ====================

theorem jsTrunc_eq_zero {x : ℝ} (h1 : -1 < x) (h2 : x < 1) : jsTrunc x = 0 := by
  unfold jsTrunc
  split_ifs with h
  · exact Int.floor_eq_zero_iff.mpr ⟨h, h2⟩
  · exact Int.ceil_eq_zero_iff.mpr ⟨h1, le_of_not_le h⟩

theorem jsMod_self {a b : ℝ} (hb : 0 < b) (h1 : -b < a) (h2 : a < b) : jsMod a b = a := by
  have ht : jsTrunc (a / b) = 0 := by
    refine jsTrunc_eq_zero ?_ ?_
    · rw [lt_div_iff hb]; linarith
    · rw [div_lt_one hb]; exact h2
  simp [jsMod, ht]

theorem jsMod_eval {a b : ℝ} (k : ℤ) (hb : 0 < b) (h0 : 0 ≤ a) (h1 : b * k ≤ a)
    (h2 : a < b * (k + 1)) : jsMod a b = a - b * k := by
  have hq : 0 ≤ a / b := div_nonneg h0 hb.le
  have hfl : ⌊a / b⌋ = k := by
    rw [Int.floor_eq_iff]
    constructor
    · rw [le_div_iff hb]; linarith
    · rw [div_lt_iff hb]; push_cast; linarith
  unfold jsMod jsTrunc
  rw [if_pos hq, hfl]

theorem jsMod_range_360 (a : ℝ) : -360 < jsMod a 360 ∧ jsMod a 360 < 360 := by
  have ha : 360 * (a / 360) = a := by ring
  unfold jsMod jsTrunc
  split_ifs with h
  · have h1 : (⌊a / 360⌋ : ℝ) ≤ a / 360 := Int.floor_le _
    have h2 : a / 360 - 1 < (⌊a / 360⌋ : ℝ) := Int.sub_one_lt_floor _
    constructor <;> linarith
  · have h1 : a / 360 ≤ (⌈a / 360⌉ : ℝ) := Int.le_ceil _
    have h2 : (⌈a / 360⌉ : ℝ) < a / 360 + 1 := Int.ceil_lt_add_one _
    constructor <;> linarith

theorem jsMod_nonneg_eq_fract {x : ℝ} (h : 0 ≤ x) :
    jsMod x 360 = 360 * Int.fract (x / 360) := by
  have hq : 0 ≤ x / 360 := div_nonneg h (by norm_num)
  unfold jsMod jsTrunc
  rw [if_pos hq, ← Int.self_sub_floor]
  ring

theorem degNorm_eq_fract (a : ℝ) : degNorm a = 360 * Int.fract (a / 360) := by
  unfold degNorm
  have hpos : (0 : ℝ) ≤ jsMod a 360 + 360 := by linarith [(jsMod_range_360 a).1]
  rw [jsMod_nonneg_eq_fract hpos]
  congr 1
  have hjval : jsMod a 360 = a - 360 * (jsTrunc (a / 360) : ℝ) := rfl
  rw [hjval]
  rw [show (a - 360 * (jsTrunc (a / 360) : ℝ) + 360) / 360 =
    a / 360 - ((jsTrunc (a / 360) - 1 : ℤ) : ℝ) by push_cast; ring]
  rw [Int.fract_sub_int]

theorem degNorm_nonneg (a : ℝ) : 0 ≤ degNorm a := by
  rw [degNorm_eq_fract]
  have := Int.fract_nonneg (a / 360)
  linarith

theorem degNorm_lt (a : ℝ) : degNorm a < 360 := by
  rw [degNorm_eq_fract]
  have := Int.fract_lt_one (a / 360)
  linarith

theorem degNorm_eq_self {a : ℝ} (h0 : 0 ≤ a) (h1 : a < 360) : degNorm a = a := by
  rw [degNorm_eq_fract]
  have hlt : a / 360 < 1 := (div_lt_one (by norm_num)).mpr h1
  rw [Int.fract_eq_self.mpr ⟨div_nonneg h0 (by norm_num), hlt⟩]
  ring

theorem degNorm_degNorm_add (a x : ℝ) : degNorm (degNorm a + x) = degNorm (a + x) := by
  rw [degNorm_eq_fract a, degNorm_eq_fract, degNorm_eq_fract]
  congr 1
  rw [show (360 * Int.fract (a / 360) + x) / 360 = Int.fract (a / 360) + x / 360 by
    ring]
  rw [show Int.fract (a / 360) + x / 360 = (a + x) / 360 - ((⌊a / 360⌋ : ℤ) : ℝ) by
    rw [← Int.self_sub_floor]; ring]
  rw [Int.fract_sub_int]

theorem degNorm_add_360 (a : ℝ) : degNorm (a + 360) = degNorm a := by
  rw [degNorm_eq_fract, degNorm_eq_fract,
    show (a + 360) / 360 = a / 360 + ((1 : ℤ) : ℝ) by push_cast; ring,
    Int.fract_add_int]

theorem clamp01_nonneg (v : ℝ) : 0 ≤ clamp01 v := le_min (by norm_num) (le_max_left 0 v)

theorem clamp01_le_one (v : ℝ) : clamp01 v ≤ 1 := min_le_left 1 _

theorem clamp01_eq_self {v : ℝ} (h0 : 0 ≤ v) (h1 : v ≤ 1) : clamp01 v = v := by
  unfold clamp01
  rw [max_eq_right h0, min_eq_right h1]

-- ==================== Claim theorems ====================

/-- C8: `rgbToCmyk` is total; with `k = 1 - max(r,g,b)/255`, the branch
`k ≥ 1 - 1e-12` returns `{c:0, m:0, y:0, k:1}` without dividing, so in the other
branch the denominator `1 - k` exceeds `1e-12`; `rgbToCmyk(0,0,0)` yields exactly
`{0,0,0,1}`; in the non-black branch c, m, y are clamped into [0,1]. -/
theorem rgbToCmyk_safe :
    (∀ r g b : ℝ, 1 - 1e-12 ≤ 1 - max (r / 255) (max (g / 255) (b / 255)) →
      rgbToCmyk r g b = ⟨0, 0, 0, 1⟩) ∧
    rgbToCmyk 0 0 0 = ⟨0, 0, 0, 1⟩ ∧
    (∀ r g b : ℝ, 1 - max (r / 255) (max (g / 255) (b / 255)) < 1 - 1e-12 →
      1e-12 < 1 - (1 - max (r / 255) (max (g / 255) (b / 255))) ∧
      0 ≤ (rgbToCmyk r g b).c ∧ (rgbToCmyk r g b).c ≤ 1 ∧
      0 ≤ (rgbToCmyk r g b).m ∧ (rgbToCmyk r g b).m ≤ 1 ∧
      0 ≤ (rgbToCmyk r g b).y ∧ (rgbToCmyk r g b).y ≤ 1) := by
  refine ⟨fun r g b h => ?_, ?_, fun r g b h => ?_⟩
  · unfold rgbToCmyk
    rw [if_pos h]
  · unfold rgbToCmyk
    norm_num
  · refine ⟨by linarith, ?_⟩
    unfold rgbToCmyk
    rw [if_neg (not_le.mpr h)]
    exact ⟨clamp01_nonneg _, clamp01_le_one _, clamp01_nonneg _, clamp01_le_one _,
      clamp01_nonneg _, clamp01_le_one _⟩

/-- C8 witness: the black-branch case at (0,0,0) and the clamped branch at
(255,128,0). -/
theorem rgbToCmyk_safe_witness :
    rgbToCmyk 0 0 0 = ⟨0, 0, 0, 1⟩ ∧
    0 ≤ (rgbToCmyk 255 128 0).c ∧ (rgbToCmyk 255 128 0).y ≤ 1 := by
  refine ⟨rgbToCmyk_safe.2.1, ?_, ?_⟩
  · exact (rgbToCmyk_safe.2.2 255 128 0 (by norm_num)).2.1
  · exact (rgbToCmyk_safe.2.2 255 128 0 (by norm_num)).2.2.2.2.2.2

/-- C9: degenerate numeric cases are signalled by `NaN` (here `none`), never by
failure: `xyzToXyY` gives x = y = NaN exactly when X+Y+Z ≤ 1e-12 (Y passed
through), `xyzToUvPrime` gives u = v = NaN exactly when X+15Y+3Z ≤ 1e-12, and
`cctMcCamyFromXy` returns NaN exactly when an input is non-finite, without
evaluating the cubic; all three are total functions. -/
theorem nan_signalling :
    (∀ xyz : XYZ, (((xyzToXyY xyz).x = none ∧ (xyzToXyY xyz).y = none) ↔
        xyz.X + xyz.Y + xyz.Z ≤ 1e-12) ∧ (xyzToXyY xyz).Y = xyz.Y) ∧
    (∀ xyz : XYZ, ((xyzToUvPrime xyz).u = none ∧ (xyzToUvPrime xyz).v = none) ↔
        xyz.X + 15 * xyz.Y + 3 * xyz.Z ≤ 1e-12) ∧
    (∀ x y : Option ℝ, cctMcCamyFromXy x y = none ↔ (x = none ∨ y = none)) := by
  refine ⟨fun xyz => ⟨?_, ?_⟩, fun xyz => ?_, fun x y => ?_⟩
  · simp only [xyzToXyY]
    split_ifs with h <;> simp [h]
  · simp only [xyzToXyY]
    split_ifs <;> rfl
  · simp only [xyzToUvPrime]
    split_ifs with h <;> simp [h]
  · cases x <;> cases y <;> simp [cctMcCamyFromXy]

/-- C4: for every base hue and every harmony kind, `harmonyAngles` returns exactly
the ordered label/angle table (Complementary [t, t+180]; Split Complementary
[t, t+150, t+210]; Analogous [t-30, t, t+30]; Triadic [t, t+120, t+240]; Tetradic
[t, t+60, t+180, t+240]), every angle degree-normalized into [0,360); in
particular `harmonyAngles(300, Triadic)` has angles [300, 60, 180]. -/
theorem harmonyAngles_table (θ : ℝ) :
    harmonyAngles θ .Complementary = [⟨"Base", degNorm θ⟩, ⟨"Comp", degNorm (θ + 180)⟩] ∧
    harmonyAngles θ .SplitComplementary = [⟨"Base", degNorm θ⟩,
      ⟨"Split-1", degNorm (θ + 150)⟩, ⟨"Split-2", degNorm (θ + 210)⟩] ∧
    harmonyAngles θ .Analogous = [⟨"Ana-1", degNorm (θ - 30)⟩, ⟨"Base", degNorm θ⟩,
      ⟨"Ana-2", degNorm (θ + 30)⟩] ∧
    harmonyAngles θ .Triadic = [⟨"Tri-1", degNorm θ⟩, ⟨"Tri-2", degNorm (θ + 120)⟩,
      ⟨"Tri-3", degNorm (θ + 240)⟩] ∧
    harmonyAngles θ .Tetradic = [⟨"Tet-1", degNorm θ⟩, ⟨"Tet-2", degNorm (θ + 60)⟩,
      ⟨"Tet-3", degNorm (θ + 180)⟩, ⟨"Tet-4", degNorm (θ + 240)⟩] ∧
    (∀ d : ℝ, 0 ≤ degNorm d ∧ degNorm d < 360) ∧
    (harmonyAngles 300 .Triadic).map HarmonyAngle.a = [300, 60, 180] := by
  refine ⟨?_, ?_, ?_, ?_, ?_, fun d => ⟨degNorm_nonneg d, degNorm_lt d⟩, ?_⟩
  · simp only [harmonyAngles, degNorm_degNorm_add]
  · simp only [harmonyAngles]
    rw [show degNorm θ + 180 - 30 = degNorm θ + 150 by ring,
      show degNorm θ + 180 + 30 = degNorm θ + 210 by ring,
      degNorm_degNorm_add, degNorm_degNorm_add]
  · simp only [harmonyAngles, degNorm_degNorm_add]
    rw [show degNorm θ - 30 = degNorm θ + (-30) by ring, degNorm_degNorm_add,
      show θ + (-30) = θ - 30 by ring]
  · simp only [harmonyAngles, degNorm_degNorm_add]
  · simp only [harmonyAngles, degNorm_degNorm_add]
  · simp only [harmonyAngles, degNorm_degNorm_add, List.map]
    have h300 : degNorm 300 = 300 := degNorm_eq_self (by norm_num) (by norm_num)
    rw [h300]
    rw [show (300 : ℝ) + 120 = 60 + 360 by norm_num, degNorm_add_360,
      show (300 : ℝ) + 240 = 180 + 360 by norm_num, degNorm_add_360,
      degNorm_eq_self (by norm_num) (by norm_num),
      degNorm_eq_self (by norm_num) (by norm_num)]

/-- C6 counterexample: at hue 110° (which lies in the claimed "105°-120° Neutral
gap") the code classifies Warm, not Neutral, so the claim's description of the
Neutral band is false. -/
theorem temperatureLabel_neutral_band_cex :
    (105 ≤ degNorm 110 ∧ degNorm 110 < 120) ∧
    temperatureLabel 110 = "Warm" ∧ temperatureLabel 110 ≠ "Neutral" := by
  have h110 : degNorm 110 = 110 := degNorm_eq_self (by norm_num) (by norm_num)
  have hwarm : temperatureLabel 110 = "Warm" := by
    simp only [temperatureLabel, h110]
    rw [if_pos]
    constructor
    · right; norm_num
    · rintro ⟨-, hlt⟩; norm_num at hlt
  refine ⟨⟨by rw [h110]; norm_num, by rw [h110]; norm_num⟩, hwarm, ?_⟩
  rw [hwarm]
  decide

/-- C6 amended: with t = degNorm θ, `temperatureLabel` returns "Warm" iff
(t ≥ 315 or t < 120) and not (75 ≤ t < 105); otherwise "Cool" iff 150 ≤ t < 285;
otherwise "Neutral" — the Neutral band being the 120°-150° and 285°-315° gaps plus
the 75°-105° warm exclusion. -/
theorem temperatureLabel_spec (θ : ℝ) :
    (temperatureLabel θ = "Warm" ↔
      ((315 ≤ degNorm θ ∨ degNorm θ < 120) ∧ ¬(75 ≤ degNorm θ ∧ degNorm θ < 105))) ∧
    (temperatureLabel θ = "Cool" ↔ (150 ≤ degNorm θ ∧ degNorm θ < 285)) ∧
    (temperatureLabel θ = "Neutral" ↔
      ((75 ≤ degNorm θ ∧ degNorm θ < 105) ∨ (120 ≤ degNorm θ ∧ degNorm θ < 150) ∨
        (285 ≤ degNorm θ ∧ degNorm θ < 315))) := by
  have h0 : 0 ≤ degNorm θ := degNorm_nonneg θ
  have h360 : degNorm θ < 360 := degNorm_lt θ
  simp only [temperatureLabel]
  set t := degNorm θ with ht
  split_ifs with hw hc
  · refine ⟨⟨fun _ => hw, fun _ => rfl⟩, ⟨fun h => absurd h (by decide), fun h => ?_⟩,
      ⟨fun h => absurd h (by decide), fun h => ?_⟩⟩
    · exfalso
      rcases hw.1 with h315 | h120 <;> linarith [h.1, h.2]
    · exfalso
      rcases h with h1 | h2 | h3
      · exact hw.2 h1
      · rcases hw.1 with h315 | h120 <;> linarith [h2.1, h2.2]
      · rcases hw.1 with h315 | h120 <;> linarith [h3.1, h3.2]
  · refine ⟨⟨fun h => absurd h (by decide), fun h => absurd h hw⟩,
      ⟨fun _ => hc, fun _ => rfl⟩,
      ⟨fun h => absurd h (by decide), fun h => ?_⟩⟩
    exfalso
    rcases h with h1 | h2 | h3 <;> linarith [hc.1, hc.2]
  · refine ⟨⟨fun h => absurd h (by decide), fun h => absurd h hw⟩,
      ⟨fun h => absurd h (by decide), fun h => absurd h hc⟩,
      ⟨fun _ => ?_, fun _ => rfl⟩⟩
    push_neg at hw hc
    rcases lt_or_le t 120 with hlt | hge
    · left
      rcases lt_or_le t 75 with h75 | h75
      · exact absurd (hw (Or.inr hlt)).1 (by linarith)
      · exact ⟨h75, (hw (Or.inr hlt)).2⟩
    · rcases lt_or_le t 150 with h150 | h150
      · exact Or.inr (Or.inl ⟨hge, h150⟩)
      · rcases lt_or_le t 285 with h285 | h285
        · exact absurd (hc h150) (not_le.mpr h285)
        · rcases lt_or_le t 315 with h315 | h315
          · exact Or.inr (Or.inr ⟨h285, h315⟩)
          · exact absurd (hw (Or.inl h315)).2 (by linarith)

theorem dedupByHex_pairwise (l : List PaletteSwatch) :
    ∀ uniq, uniq.Pairwise (fun a b => jsToLower a.hex ≠ jsToLower b.hex) →
      (dedupByHex uniq l).Pairwise (fun a b => jsToLower a.hex ≠ jsToLower b.hex) := by
  induction l with
  | nil => exact fun uniq h => h
  | cons s rest ih =>
    intro uniq h
    unfold dedupByHex
    split_ifs with hany
    · exact ih uniq h
    · refine ih (uniq ++ [s]) ?_
      rw [List.pairwise_append]
      refine ⟨h, List.pairwise_singleton _ _, ?_⟩
      intro a ha b hb
      simp only [List.mem_singleton] at hb
      subst hb
      simp only [List.any_eq_true, beq_iff_eq, not_exists, not_and] at hany
      exact hany a ha

/-- C7: after every palette mutation (add, addHarmony, addTint, remove, clear)
the palette holds at most 24 swatches with pairwise case-insensitively distinct
hex strings; adding a swatch whose hex already occurs (case-insensitively) leaves
the palette unchanged; and adding a fresh color to a full 24-swatch palette
prepends it and drops the oldest (last) entry. -/
theorem palette_invariants :
    (∀ sw prev, paletteInv prev → paletteInv (paletteAdd sw prev)) ∧
    (∀ news prev, paletteInv (paletteAddHarmony news prev)) ∧
    (∀ sw prev, paletteInv prev → paletteInv (paletteAddTint sw prev)) ∧
    (∀ i prev, paletteInv prev → paletteInv (paletteRemove i prev)) ∧
    paletteInv paletteClear ∧
    (∀ sw prev, (∃ p ∈ prev, jsToLower p.hex = jsToLower sw.hex) →
      paletteAdd sw prev = prev ∧ paletteAddTint sw prev = prev) ∧
    (∀ sw prev, prev.length = 24 → (∀ p ∈ prev, jsToLower p.hex ≠ jsToLower sw.hex) →
      paletteAdd sw prev = sw :: prev.dropLast) := by
  refine ⟨?_, ?_, ?_, ?_, ?_, ?_, ?_⟩
  · intro sw prev hinv
    unfold paletteAdd
    split_ifs with h
    · exact hinv
    · simp only [List.any_eq_true, beq_iff_eq, not_exists, not_and] at h
      refine ⟨List.length_take_le _ _, ?_⟩
      refine List.Pairwise.sublist (List.take_sublist _ _) ?_
      rw [List.pairwise_cons]
      exact ⟨fun p hp => fun he => h p hp he.symm, hinv.2⟩
  · intro news prev
    refine ⟨List.length_take_le _ _, ?_⟩
    exact List.Pairwise.sublist (List.take_sublist _ _)
      (dedupByHex_pairwise (news ++ prev) [] (List.Pairwise.nil))
  · intro sw prev hinv
    unfold paletteAddTint
    split_ifs with h
    · exact hinv
    · simp only [List.any_eq_true, beq_iff_eq, not_exists, not_and] at h
      refine ⟨List.length_take_le _ _, ?_⟩
      refine List.Pairwise.sublist (List.take_sublist _ _) ?_
      rw [List.pairwise_cons]
      exact ⟨fun p hp => fun he => h p hp he.symm, hinv.2⟩
  · intro i prev hinv
    exact ⟨le_trans (List.length_filter_le _ _) hinv.1,
      List.Pairwise.sublist (List.filter_sublist _) hinv.2⟩
  · exact ⟨by simp [paletteClear], List.Pairwise.nil⟩
  · rintro sw prev ⟨p, hp, hpe⟩
    have hany : prev.any (fun p => jsToLower p.hex == jsToLower sw.hex) = true := by
      simp only [List.any_eq_true, beq_iff_eq]
      exact ⟨p, hp, hpe⟩
    constructor
    · unfold paletteAdd
      rw [if_pos hany]
    · unfold paletteAddTint
      rw [if_pos hany]
  · intro sw prev hlen hfresh
    have hany : ¬prev.any (fun p => jsToLower p.hex == jsToLower sw.hex) = true := by
      simp only [List.any_eq_true, beq_iff_eq, not_exists, not_and]
      exact fun p hp => hfresh p hp
    unfold paletteAdd
    rw [if_neg hany]
    rw [show (24 : ℕ) = 23 + 1 by norm_num, List.take_succ_cons]
    congr 1
    rw [List.dropLast_eq_take, hlen]

/-- C7 witness: invariant preservation at a concrete two-swatch palette, a no-op
duplicate insertion differing only in hex case, and the 25th distinct color
dropping the oldest entry of a full 24-swatch palette. -/
theorem palette_invariants_witness :
    paletteInv (paletteAdd ⟨"i1", "#FF0000", ⟨255, 0, 0⟩, ⟨0, 1, 0.5⟩, "Red 0"⟩
      [⟨"i2", "#00ff00", ⟨0, 255, 0⟩, ⟨120, 1, 0.5⟩, "Green 120"⟩]) ∧
    paletteAdd ⟨"i3", "#ff0000", ⟨255, 0, 0⟩, ⟨0, 1, 0.5⟩, "Red dup"⟩
        [⟨"i1", "#FF0000", ⟨255, 0, 0⟩, ⟨0, 1, 0.5⟩, "Red 0"⟩] =
      [⟨"i1", "#FF0000", ⟨255, 0, 0⟩, ⟨0, 1, 0.5⟩, "Red 0"⟩] ∧
    paletteAdd ⟨"w", "#ffffff", ⟨255, 255, 255⟩, ⟨0, 0, 1⟩, "White"⟩
        ((List.range 24).map (fun i =>
          (⟨toString i, "#" ++ toString i, ⟨0, 0, 0⟩, ⟨0, 0, 0⟩, ""⟩ : PaletteSwatch))) =
      ⟨"w", "#ffffff", ⟨255, 255, 255⟩, ⟨0, 0, 1⟩, "White"⟩ ::
        ((List.range 24).map (fun i =>
          (⟨toString i, "#" ++ toString i, ⟨0, 0, 0⟩, ⟨0, 0, 0⟩, ""⟩ : PaletteSwatch))).dropLast := by
  refine ⟨?_, ?_, ?_⟩
  · exact palette_invariants.1 _ _ ⟨by decide, List.pairwise_singleton _ _⟩
  · exact (palette_invariants.2.2.2.2.2.1 _ _
      ⟨⟨"i1", "#FF0000", ⟨255, 0, 0⟩, ⟨0, 1, 0.5⟩, "Red 0"⟩, List.mem_singleton.mpr rfl,
        by decide⟩).1
  · exact palette_invariants.2.2.2.2.2.2 _ _ (by decide) (by decide)

theorem jsRound_intCast (n : ℤ) : jsRound (n : ℝ) = n := by
  unfold jsRound
  rw [Int.floor_int_add]
  norm_num

/-- For integer channel values 0-255, gamma decode followed by encode is exact. -/
theorem srgb_roundtrip {n : ℤ} (h0 : 0 ≤ n) (h255 : n ≤ 255) :
    linearToSrgb (srgbToLinear (n : ℝ)) = (n : ℝ) := by
  have h0' : (0 : ℝ) ≤ (n : ℝ) := by exact_mod_cast h0
  have h255' : (n : ℝ) ≤ 255 := by exact_mod_cast h255
  have hu0 : (0 : ℝ) ≤ (n : ℝ) / 255 := by positivity
  have hu1 : (n : ℝ) / 255 ≤ 1 := by
    rw [div_le_one (by norm_num : (0 : ℝ) < 255)]
    exact h255'
  rcases le_or_lt (n : ℝ) 10 with hn | hn
  · have hle : (n : ℝ) / 255 ≤ 0.04045 := by
      rw [div_le_iff (by norm_num : (0 : ℝ) < 255)]
      linarith
    have hsl : srgbToLinear (n : ℝ) = (n : ℝ) / 255 / 12.92 := by
      simp only [srgbToLinear]
      rw [if_pos hle]
    rw [hsl]
    simp only [linearToSrgb]
    rw [if_pos (show (n : ℝ) / 255 / 12.92 ≤ 0.0031308 by
      rw [div_le_iff (by norm_num : (0 : ℝ) < 12.92), div_le_iff
        (by norm_num : (0 : ℝ) < 255)]
      linarith)]
    rw [show (12.92 : ℝ) * ((n : ℝ) / 255 / 12.92) = (n : ℝ) / 255 by ring]
    rw [clamp01_eq_self hu0 hu1]
    rw [show ((n : ℝ) / 255) * 255 = (n : ℝ) by ring]
    exact congrArg _ (jsRound_intCast n)
  · have hn11 : (11 : ℝ) ≤ (n : ℝ) := by
      have h10 : (10 : ℤ) < n := by exact_mod_cast hn
      exact_mod_cast h10
    have hgt : ¬((n : ℝ) / 255 ≤ 0.04045) := by
      rw [not_le, lt_div_iff (by norm_num : (0 : ℝ) < 255)]
      linarith
    have hbasepos : (0 : ℝ) < ((n : ℝ) / 255 + 0.055) / 1.055 := by positivity
    have hsl : srgbToLinear (n : ℝ) = (((n : ℝ) / 255 + 0.055) / 1.055) ^ (2.4 : ℝ) := by
      simp only [srgbToLinear]
      rw [if_neg hgt]
    have hbpos : (0 : ℝ) < ((11 : ℝ) / 255 + 0.055) / 1.055 := by norm_num
    have hb11 : ((11 : ℝ) / 255 + 0.055) / 1.055 ≤ ((n : ℝ) / 255 + 0.055) / 1.055 := by
      have h1 : (11 : ℝ) / 255 ≤ (n : ℝ) / 255 :=
        (div_le_div_right (by norm_num : (0 : ℝ) < 255)).mpr hn11
      exact (div_le_div_right (by norm_num : (0 : ℝ) < 1.055)).mpr (by linarith)
    have hpow5 : ((((11 : ℝ) / 255 + 0.055) / 1.055) ^ ((12 : ℝ) / 5)) ^ (5 : ℕ) =
        (((11 : ℝ) / 255 + 0.055) / 1.055) ^ (12 : ℕ) := by
      rw [← Real.rpow_natCast ((((11 : ℝ) / 255 + 0.055) / 1.055) ^ ((12 : ℝ) / 5)) 5,
        ← Real.rpow_mul hbpos.le]
      rw [show ((12 : ℝ) / 5) * ((5 : ℕ) : ℝ) = ((12 : ℕ) : ℝ) by push_cast; norm_num]
      rw [Real.rpow_natCast]
    have hc5 : ((0.0031308 : ℝ)) ^ (5 : ℕ) <
        (((11 : ℝ) / 255 + 0.055) / 1.055) ^ (12 : ℕ) := by norm_num
    have hkey : (0.0031308 : ℝ) < (((11 : ℝ) / 255 + 0.055) / 1.055) ^ ((12 : ℝ) / 5) := by
      by_contra hle2
      push_neg at hle2
      have h5 := pow_le_pow_left (Real.rpow_nonneg hbpos.le _) hle2 5
      rw [hpow5] at h5
      linarith
    have hL : (0.0031308 : ℝ) < (((n : ℝ) / 255 + 0.055) / 1.055) ^ (2.4 : ℝ) := by
      calc (0.0031308 : ℝ) < (((11 : ℝ) / 255 + 0.055) / 1.055) ^ ((12 : ℝ) / 5) := hkey
        _ ≤ (((n : ℝ) / 255 + 0.055) / 1.055) ^ ((12 : ℝ) / 5) :=
          Real.rpow_le_rpow hbpos.le hb11 (by norm_num)
        _ = (((n : ℝ) / 255 + 0.055) / 1.055) ^ (2.4 : ℝ) := by norm_num
    rw [hsl]
    simp only [linearToSrgb]
    rw [if_neg (not_le.mpr hL)]
    rw [← Real.rpow_mul hbasepos.le]
    rw [show (2.4 : ℝ) * ((1 : ℝ) / 2.4) = 1 by norm_num, Real.rpow_one]
    rw [show (1.055 : ℝ) * (((n : ℝ) / 255 + 0.055) / 1.055) - 0.055 = (n : ℝ) / 255 by
      ring]
    rw [clamp01_eq_self hu0 hu1]
    rw [show ((n : ℝ) / 255) * 255 = (n : ℝ) by ring]
    exact congrArg _ (jsRound_intCast n)

/-- C5: for 8-bit integer RGB inputs, `mixLinearRGB(a,b,0) = a` and
`mixLinearRGB(a,b,1) = b` exactly (rounding included), and each channel of
`mixLinearRGB(black, white, 0.5)` lies strictly between 100 and 200 (the
gamma-encoded linear midpoint, brighter than the naive sRGB average 128). -/
theorem mixLinearRGB_endpoints_midpoint :
    (∀ a1 a2 a3 b1 b2 b3 : ℤ,
      0 ≤ a1 → a1 ≤ 255 → 0 ≤ a2 → a2 ≤ 255 → 0 ≤ a3 → a3 ≤ 255 →
      0 ≤ b1 → b1 ≤ 255 → 0 ≤ b2 → b2 ≤ 255 → 0 ≤ b3 → b3 ≤ 255 →
      mixLinearRGB ⟨(a1 : ℝ), a2, a3⟩ ⟨(b1 : ℝ), b2, b3⟩ 0 = ⟨(a1 : ℝ), a2, a3⟩ ∧
      mixLinearRGB ⟨(a1 : ℝ), a2, a3⟩ ⟨(b1 : ℝ), b2, b3⟩ 1 = ⟨(b1 : ℝ), b2, b3⟩) ∧
    (100 < (mixLinearRGB ⟨0, 0, 0⟩ ⟨255, 255, 255⟩ 0.5).r ∧
      (mixLinearRGB ⟨0, 0, 0⟩ ⟨255, 255, 255⟩ 0.5).r < 200 ∧
      100 < (mixLinearRGB ⟨0, 0, 0⟩ ⟨255, 255, 255⟩ 0.5).g ∧
      (mixLinearRGB ⟨0, 0, 0⟩ ⟨255, 255, 255⟩ 0.5).g < 200 ∧
      100 < (mixLinearRGB ⟨0, 0, 0⟩ ⟨255, 255, 255⟩ 0.5).b ∧
      (mixLinearRGB ⟨0, 0, 0⟩ ⟨255, 255, 255⟩ 0.5).b < 200) := by
  constructor
  · intro a1 a2 a3 b1 b2 b3 ha1 ha1' ha2 ha2' ha3 ha3' hb1 hb1' hb2 hb2' hb3 hb3'
    constructor
    · simp only [mixLinearRGB, rgbToLinearRgb]
      simp only [show ∀ x y : ℝ, x + (y - x) * 0 = x from fun x y => by ring]
      rw [RGB.mk.injEq]
      exact ⟨srgb_roundtrip ha1 ha1', srgb_roundtrip ha2 ha2', srgb_roundtrip ha3 ha3'⟩
    · simp only [mixLinearRGB, rgbToLinearRgb]
      simp only [show ∀ x y : ℝ, x + (y - x) * 1 = y from fun x y => by ring]
      rw [RGB.mk.injEq]
      exact ⟨srgb_roundtrip hb1 hb1', srgb_roundtrip hb2 hb2', srgb_roundtrip hb3 hb3'⟩
  · have hblack : srgbToLinear (0 : ℝ) = 0 := by
      simp only [srgbToLinear]
      norm_num
    have hwhite : srgbToLinear (255 : ℝ) = 1 := by
      simp only [srgbToLinear]
      rw [if_neg (by norm_num)]
      rw [show ((255 : ℝ) / 255 + 0.055) / 1.055 = 1 by norm_num, Real.one_rpow]
    have ht12 : ((0.5 : ℝ) ^ ((1 : ℝ) / 2.4)) ^ (12 : ℕ) = (1 / 32 : ℝ) := by
      rw [← Real.rpow_natCast ((0.5 : ℝ) ^ ((1 : ℝ) / 2.4)) 12,
        ← Real.rpow_mul (by norm_num : (0 : ℝ) ≤ 0.5)]
      rw [show ((1 : ℝ) / 2.4) * ((12 : ℕ) : ℝ) = ((5 : ℕ) : ℝ) by push_cast; norm_num]
      rw [Real.rpow_natCast]
      norm_num
    have htpos : (0 : ℝ) < (0.5 : ℝ) ^ ((1 : ℝ) / 2.4) :=
      Real.rpow_pos_of_pos (by norm_num) _
    have hlow : (0.74 : ℝ) < (0.5 : ℝ) ^ ((1 : ℝ) / 2.4) := by
      by_contra hle
      push_neg at hle
      have h12 := pow_le_pow_left htpos.le hle 12
      rw [ht12] at h12
      norm_num at h12
    have hhigh : (0.5 : ℝ) ^ ((1 : ℝ) / 2.4) < 0.76 := by
      by_contra hle
      push_neg at hle
      have h12 := pow_le_pow_left (by norm_num : (0 : ℝ) ≤ 0.76) hle 12
      rw [ht12] at h12
      norm_num at h12
    have hch : (mixLinearRGB ⟨0, 0, 0⟩ ⟨255, 255, 255⟩ 0.5).r =
        ((jsRound (clamp01 (1.055 * (0.5 : ℝ) ^ ((1 : ℝ) / 2.4) - 0.055) * 255) : ℤ) : ℝ) ∧
        (mixLinearRGB ⟨0, 0, 0⟩ ⟨255, 255, 255⟩ 0.5).g =
        ((jsRound (clamp01 (1.055 * (0.5 : ℝ) ^ ((1 : ℝ) / 2.4) - 0.055) * 255) : ℤ) : ℝ) ∧
        (mixLinearRGB ⟨0, 0, 0⟩ ⟨255, 255, 255⟩ 0.5).b =
        ((jsRound (clamp01 (1.055 * (0.5 : ℝ) ^ ((1 : ℝ) / 2.4) - 0.055) * 255) : ℤ) : ℝ) := by
      simp only [mixLinearRGB, rgbToLinearRgb, hblack, hwhite]
      simp only [show (0 : ℝ) + (1 - 0) * 0.5 = 0.5 by norm_num]
      simp only [linearToSrgb]
      rw [if_neg (by norm_num : ¬((0.5 : ℝ) ≤ 0.0031308))]
      exact ⟨rfl, rfl, rfl⟩
    have hval : (185 : ℤ) ≤ jsRound (clamp01 (1.055 * (0.5 : ℝ) ^ ((1 : ℝ) / 2.4) - 0.055) * 255) ∧
        jsRound (clamp01 (1.055 * (0.5 : ℝ) ^ ((1 : ℝ) / 2.4) - 0.055) * 255) ≤ 190 := by
      rw [clamp01_eq_self (by linarith) (by linarith)]
      unfold jsRound
      constructor
      · refine Int.le_floor.mpr ?_
        push_cast
        linarith
      · have : (1.055 * (0.5 : ℝ) ^ ((1 : ℝ) / 2.4) - 0.055) * 255 + 1 / 2 < 191 := by
          linarith
        have hfl := Int.floor_lt.mpr (by push_cast; linarith :
          (1.055 * (0.5 : ℝ) ^ ((1 : ℝ) / 2.4) - 0.055) * 255 + 1 / 2 < ((191 : ℤ) : ℝ))
        linarith [hfl]
    rw [hch.1, hch.2.1, hch.2.2]
    have hc1 : (100 : ℝ) < ((jsRound (clamp01 (1.055 * (0.5 : ℝ) ^ ((1 : ℝ) / 2.4) - 0.055) * 255) : ℤ) : ℝ) := by
      have := hval.1
      have hcast : ((185 : ℤ) : ℝ) ≤ _ := Int.cast_le.mpr this
      push_cast at hcast
      linarith
    have hc2 : ((jsRound (clamp01 (1.055 * (0.5 : ℝ) ^ ((1 : ℝ) / 2.4) - 0.055) * 255) : ℤ) : ℝ) < 200 := by
      have := hval.2
      have hcast : _ ≤ ((190 : ℤ) : ℝ) := Int.cast_le.mpr this
      push_cast at hcast
      linarith
    exact ⟨hc1, hc2, hc1, hc2, hc1, hc2⟩

/-- C5 witness: endpoint identities at concrete colors (12,34,56) and (200,100,0). -/
theorem mixLinearRGB_endpoints_midpoint_witness :
    mixLinearRGB ⟨(12 : ℝ), 34, 56⟩ ⟨(200 : ℝ), 100, 0⟩ 0 = ⟨(12 : ℝ), 34, 56⟩ ∧
    mixLinearRGB ⟨(12 : ℝ), 34, 56⟩ ⟨(200 : ℝ), 100, 0⟩ 1 = ⟨(200 : ℝ), 100, 0⟩ := by
  have h := mixLinearRGB_endpoints_midpoint.1 12 34 56 200 100 0
    (by decide) (by decide) (by decide) (by decide) (by decide) (by decide)
    (by decide) (by decide) (by decide) (by decide) (by decide) (by decide)
  constructor
  · have := h.1
    push_cast at this ⊢
    exact this
  · have := h.2
    push_cast at this ⊢
    exact this

theorem rangeDown_eq_map (f : ℕ → TintShadeStep) (k : ℕ) :
    rangeDown f k = (List.range k).map (fun j => f (k - j)) := by
  induction k with
  | zero => rfl
  | succ k ih =>
    rw [show rangeDown f (k + 1) = f (k + 1) :: rangeDown f k from rfl, ih,
      List.range_succ_eq_map, List.map_cons, List.map_map]
    have hfun : ((fun j => f (k + 1 - j)) ∘ Nat.succ) = (fun j => f (k - j)) := by
      funext j
      simp [Function.comp, Nat.succ_sub_succ]
    rw [hfun]
    simp

theorem rangeUp_eq_map (f : ℕ → TintShadeStep) (k : ℕ) :
    rangeUp f k = (List.range k).map (fun j => f (j + 1)) := by
  induction k with
  | zero => rfl
  | succ k ih =>
    rw [show rangeUp f (k + 1) = rangeUp f k ++ [f (k + 1)] from rfl, ih, List.range_succ,
      List.map_append]
    simp

/-- C3: `tints` clamps the requested step count into [3,11]; with
`half = floor(steps/2)` it returns, in order, `half` tints mixing base toward
white at fractions i/(half+1) for i = half down to 1 (lightest first), the base
unmodified, then `half` shades mixing base toward black at fractions i/(half+1)
for i = 1 to half — every mix through `mixLinearRGB`. -/
theorem tints_structure (base : RGB) (baseHex : String) (n : ℝ) :
    3 ≤ max 3 (min 11 n) ∧ max 3 (min 11 n) ≤ 11 ∧
    tintsList base baseHex n =
      (List.range ((⌊max 3 (min 11 n) / 2⌋).toNat)).map (fun j =>
        let i : ℕ := (⌊max 3 (min 11 n) / 2⌋).toNat - j
        let rgb := mixLinearRGB base ⟨255, 255, 255⟩
          ((i : ℝ) / (((⌊max 3 (min 11 n) / 2⌋).toNat : ℝ) + 1))
        (⟨"Tint " ++ toString i, rgb, rgbToHex rgb.r rgb.g rgb.b⟩ : TintShadeStep))
      ++ [⟨"Base", base, baseHex⟩]
      ++ (List.range ((⌊max 3 (min 11 n) / 2⌋).toNat)).map (fun j =>
        let i : ℕ := j + 1
        let rgb := mixLinearRGB base ⟨0, 0, 0⟩
          ((i : ℝ) / (((⌊max 3 (min 11 n) / 2⌋).toNat : ℝ) + 1))
        (⟨"Shade " ++ toString i, rgb, rgbToHex rgb.r rgb.g rgb.b⟩ : TintShadeStep)) := by
  refine ⟨le_max_left _ _, max_le (by norm_num) (min_le_left _ _), ?_⟩
  simp only [tintsList]
  rw [rangeDown_eq_map, rangeUp_eq_map]

theorem atan2_deg_bounds (y x : ℝ) :
    -180 < jsAtan2 y x * 180 / Real.pi ∧ jsAtan2 y x * 180 / Real.pi ≤ 180 := by
  have hpi : 0 < Real.pi := Real.pi_pos
  have h1 : -Real.pi < jsAtan2 y x := Complex.neg_pi_lt_arg _
  have h2 : jsAtan2 y x ≤ Real.pi := Complex.arg_le_pi _
  constructor
  · rw [lt_div_iff hpi]
    nlinarith
  · rw [div_le_iff hpi]
    nlinarith

theorem degNorm_of_deg {a : ℝ} (h1 : -360 < a) (h2 : a < 360) :
    degNorm a = jsMod (a + 360) 360 := by
  unfold degNorm
  rw [jsMod_self (by norm_num) h1 h2]

theorem thetaDegFromXY_eq_degNorm (x y : ℝ) :
    thetaDegFromXY x y =
      degNorm (jsAtan2 (x - MODEL.cx) (-(y - MODEL.cy)) * 180 / Real.pi) := by
  rw [degNorm_of_deg (by linarith [(atan2_deg_bounds (x - MODEL.cx) (-(y - MODEL.cy))).1])
    (by linarith [(atan2_deg_bounds (x - MODEL.cx) (-(y - MODEL.cy))).2])]
  rfl

/-- C2: for every point whose radius from the wheel center lies in
[R_inner, R_color], `wheelColorAt` returns the color `hslToRgb(theta, s2, l2)`
with theta = degNorm of the atan2(dx, -dy) angle in degrees, f the normalized
radius, s = clamp01(f^1.25), l = clamp01(0.92 - 0.42 f^0.85), rim boost
(f - 0.84)/0.16 above f > 0.84, s2 = clamp01(s + 0.22 boost),
l2 = clamp01(l - 0.06 boost); outside the band the lookup returns none. -/
theorem wheelColorAt_profile (x y : ℝ) :
    (MODEL.R_inner ≤ radiusFromXY x y ∧ radiusFromXY x y ≤ MODEL.R_color →
      wheelColorAt x y = some
        { theta := thetaDegFromXY x y
          r := radiusFromXY x y
          f := clamp01 ((radiusFromXY x y - MODEL.R_inner) /
            (MODEL.R_color - MODEL.R_inner))
          rgb :=
            let f := clamp01 ((radiusFromXY x y - MODEL.R_inner) /
              (MODEL.R_color - MODEL.R_inner))
            let s := clamp01 (f ^ (1.25 : ℝ))
            let l := clamp01 (0.92 - 0.42 * f ^ (0.85 : ℝ))
            let boost := if 0.84 < f then (f - 0.84) / 0.16 else 0
            hslToRgb (degNorm (jsAtan2 (x - MODEL.cx) (-(y - MODEL.cy)) * 180 / Real.pi))
              (clamp01 (s + 0.22 * boost)) (clamp01 (l - 0.06 * boost)) }) ∧
    (radiusFromXY x y < MODEL.R_inner ∨ MODEL.R_color < radiusFromXY x y →
      wheelColorAt x y = none) := by
  constructor
  · rintro ⟨hlo, hhi⟩
    simp only [wheelColorAt]
    rw [if_neg (by push_neg; exact ⟨hhi, hlo⟩)]
    rw [show (1 : ℝ) - 0.84 = 0.16 by norm_num, thetaDegFromXY_eq_degNorm]
  · intro h
    simp only [wheelColorAt]
    rw [if_pos]
    rcases h with h | h
    · exact Or.inr h
    · exact Or.inl h

/-- C2 witness: the point (800, 300) at radius 500 lies in the band [288, 704]
and yields a color; the point (800, 790) at radius 10 lies in the hole and
yields none. -/
theorem wheelColorAt_profile_witness :
    (∃ c, wheelColorAt 800 300 = some c) ∧ wheelColorAt 800 790 = none := by
  have hr1 : radiusFromXY 800 300 = 500 := by
    simp only [radiusFromXY, MODEL.cx, MODEL.cy, OFF_SIZE]
    rw [show ((800 : ℝ) - 1600 / 2) * ((800 : ℝ) - 1600 / 2) +
      ((300 : ℝ) - 1600 / 2) * ((300 : ℝ) - 1600 / 2) = 500 ^ 2 by norm_num]
    exact Real.sqrt_sq (by norm_num)
  have hr2 : radiusFromXY 800 790 = 10 := by
    simp only [radiusFromXY, MODEL.cx, MODEL.cy, OFF_SIZE]
    rw [show ((800 : ℝ) - 1600 / 2) * ((800 : ℝ) - 1600 / 2) +
      ((790 : ℝ) - 1600 / 2) * ((790 : ℝ) - 1600 / 2) = 10 ^ 2 by norm_num]
    exact Real.sqrt_sq (by norm_num)
  have hb1 : MODEL.R_inner ≤ radiusFromXY 800 300 := by
    rw [hr1]
    simp only [ MODEL.R_inner, OFF_SIZE]
    norm_num
  have hb2 : radiusFromXY 800 300 ≤ MODEL.R_color := by
    rw [hr1]
    simp only [ MODEL.R_color, OFF_SIZE]
    norm_num
  have hb3 : radiusFromXY 800 790 < MODEL.R_inner := by
    rw [hr2]
    simp only [ MODEL.R_inner, OFF_SIZE]
    norm_num
  constructor
  · exact ⟨_, (wheelColorAt_profile 800 300).1 ⟨hb1, hb2⟩⟩
  · exact (wheelColorAt_profile 800 790).2 (Or.inl hb3)

/-- C10: every Sample produced by an in-bounds probe carries a Complement iff
the probed radius lies inside [R_inner, R_color] (the `inside` flag); when
present, comp.theta = (theta + 180) mod 360 and the complement color is read
back at the same radius as the sample, in the comp.theta direction. -/
theorem sampleAtCanvas_comp (readRgb : ℤ → ℤ → RGB) (tf : WheelTransform) (pt : Point)
    (h1 : 0 ≤ (pt.x - tf.dx) / tf.scale) (h2 : 0 ≤ (pt.y - tf.dy) / tf.scale)
    (h3 : (pt.x - tf.dx) / tf.scale < OFF_SIZE) (h4 : (pt.y - tf.dy) / tf.scale < OFF_SIZE) :
    ∃ s, sampleAtCanvas readRgb tf pt = some s ∧
      (s.inside ↔ (MODEL.R_inner ≤ s.r ∧ s.r ≤ MODEL.R_color)) ∧
      (s.comp.isSome = true ↔ s.inside) ∧
      (∀ c, s.comp = some c →
        c.theta = jsMod (s.theta + 180) 360 ∧
        c.rgb = readRgb
          (pixIndex (MODEL.cx +
            Real.sin (jsMod (s.theta + 180) 360 * Real.pi / 180) * s.r))
          (pixIndex (MODEL.cy +
            -Real.cos (jsMod (s.theta + 180) 360 * Real.pi / 180) * s.r))) := by
  simp only [sampleAtCanvas, canvasToOff]
  rw [if_neg (by push_neg; exact ⟨h1, h2, h3, h4⟩)]
  refine ⟨_, rfl, ?_, ?_, ?_⟩
  · dsimp only
    exact ⟨fun h => ⟨h.2, h.1⟩, fun h => ⟨h.2, h.1⟩⟩
  · dsimp only
    split_ifs with hin
    · simp [hin]
    · simp [hin]
  · dsimp only
    intro c hc
    split_ifs at hc with hin
    rw [Option.some.injEq] at hc
    subst hc
    exact ⟨rfl, rfl⟩

/-- C10 witness: with the identity transform and a constant pixel oracle, the
probe at canvas point (800, 300) is in bounds and produces a Sample. -/
theorem sampleAtCanvas_comp_witness :
    ∃ s, sampleAtCanvas (fun _ _ => ⟨0, 0, 0⟩) ⟨1, 0, 0, 1, 0, 0⟩ ⟨800, 300⟩ = some s := by
  obtain ⟨s, hs, -⟩ := sampleAtCanvas_comp (fun _ _ => ⟨0, 0, 0⟩) ⟨1, 0, 0, 1, 0, 0⟩
    ⟨800, 300⟩ (by norm_num) (by norm_num)
    (by simp only [OFF_SIZE]; norm_num) (by simp only [OFF_SIZE]; norm_num)
  exact ⟨s, hs⟩

theorem jsMod_two_sub_two {x : ℝ} (h0 : 2 ≤ x) (h1 : x < 4) : jsMod x 2 = x - 2 := by
  have h := jsMod_eval (a := x) (b := 2) 1 (by norm_num) (by linarith)
    (by push_cast; linarith) (by push_cast; linarith)
  rw [h]
  push_cast
  ring

theorem jsMod_two_sub_four {x : ℝ} (h0 : 4 ≤ x) (h1 : x < 6) : jsMod x 2 = x - 4 := by
  have h := jsMod_eval (a := x) (b := 2) 2 (by norm_num) (by linarith)
    (by push_cast; linarith) (by push_cast; linarith)
  rw [h]
  push_cast
  ring

theorem sectorPre_s0 {h : ℝ} (C m : ℝ) (hl : 0 ≤ h) (hu : h < 60) :
    sectorPre h C m = (C + m, C * (h / 60) + m, m) := by
  have hmod : jsMod h 360 = h := jsMod_self (by norm_num) (by linarith) (by linarith)
  have hh0 : 0 ≤ h / 60 := div_nonneg hl (by norm_num)
  have hh1 : h / 60 < 1 := (div_lt_one (by norm_num)).mpr hu
  have hmod2 : jsMod (h / 60) 2 = h / 60 :=
    jsMod_self (by norm_num) (by linarith) (by linarith)
  simp only [sectorPre, hmod, hmod2]
  rw [if_pos ⟨hh0, hh1⟩, abs_of_nonpos (by linarith : h / 60 - 1 ≤ 0)]
  dsimp only
  simp only [Prod.mk.injEq]
  refine ⟨by ring, by ring, by ring⟩

theorem sectorPre_s1 {h : ℝ} (C m : ℝ) (hl : 60 ≤ h) (hu : h < 120) :
    sectorPre h C m = (C * (2 - h / 60) + m, C + m, m) := by
  have hmod : jsMod h 360 = h := jsMod_self (by norm_num) (by linarith) (by linarith)
  have hh0 : 1 ≤ h / 60 := by rw [le_div_iff (by norm_num : (0 : ℝ) < 60)]; linarith
  have hh1 : h / 60 < 2 := by rw [div_lt_iff (by norm_num : (0 : ℝ) < 60)]; linarith
  have hmod2 : jsMod (h / 60) 2 = h / 60 :=
    jsMod_self (by norm_num) (by linarith) (by linarith)
  simp only [sectorPre, hmod, hmod2]
  rw [if_neg (by rintro ⟨-, hx⟩; linarith), if_pos ⟨hh0, hh1⟩,
    abs_of_nonneg (by linarith : 0 ≤ h / 60 - 1)]
  dsimp only
  simp only [Prod.mk.injEq]
  refine ⟨by ring, by ring, by ring⟩

theorem sectorPre_s2 {h : ℝ} (C m : ℝ) (hl : 120 ≤ h) (hu : h < 180) :
    sectorPre h C m = (m, C + m, C * (h / 60 - 2) + m) := by
  have hmod : jsMod h 360 = h := jsMod_self (by norm_num) (by linarith) (by linarith)
  have hh0 : 2 ≤ h / 60 := by rw [le_div_iff (by norm_num : (0 : ℝ) < 60)]; linarith
  have hh1 : h / 60 < 3 := by rw [div_lt_iff (by norm_num : (0 : ℝ) < 60)]; linarith
  have hmod2 : jsMod (h / 60) 2 = h / 60 - 2 := jsMod_two_sub_two hh0 (by linarith)
  simp only [sectorPre, hmod, hmod2]
  rw [if_neg (by rintro ⟨-, hx⟩; linarith), if_neg (by rintro ⟨-, hx⟩; linarith),
    if_pos ⟨hh0, hh1⟩, abs_of_nonpos (by linarith : h / 60 - 2 - 1 ≤ 0)]
  dsimp only
  simp only [Prod.mk.injEq]
  refine ⟨by ring, by ring, by ring⟩

theorem sectorPre_s3 {h : ℝ} (C m : ℝ) (hl : 180 ≤ h) (hu : h < 240) :
    sectorPre h C m = (m, C * (4 - h / 60) + m, C + m) := by
  have hmod : jsMod h 360 = h := jsMod_self (by norm_num) (by linarith) (by linarith)
  have hh0 : 3 ≤ h / 60 := by rw [le_div_iff (by norm_num : (0 : ℝ) < 60)]; linarith
  have hh1 : h / 60 < 4 := by rw [div_lt_iff (by norm_num : (0 : ℝ) < 60)]; linarith
  have hmod2 : jsMod (h / 60) 2 = h / 60 - 2 := jsMod_two_sub_two (by linarith) hh1
  simp only [sectorPre, hmod, hmod2]
  rw [if_neg (by rintro ⟨-, hx⟩; linarith), if_neg (by rintro ⟨-, hx⟩; linarith),
    if_neg (by rintro ⟨-, hx⟩; linarith), if_pos ⟨hh0, hh1⟩,
    abs_of_nonneg (by linarith : 0 ≤ h / 60 - 2 - 1)]
  dsimp only
  simp only [Prod.mk.injEq]
  refine ⟨by ring, by ring, by ring⟩

theorem sectorPre_s4 {h : ℝ} (C m : ℝ) (hl : 240 ≤ h) (hu : h < 300) :
    sectorPre h C m = (C * (h / 60 - 4) + m, m, C + m) := by
  have hmod : jsMod h 360 = h := jsMod_self (by norm_num) (by linarith) (by linarith)
  have hh0 : 4 ≤ h / 60 := by rw [le_div_iff (by norm_num : (0 : ℝ) < 60)]; linarith
  have hh1 : h / 60 < 5 := by rw [div_lt_iff (by norm_num : (0 : ℝ) < 60)]; linarith
  have hmod2 : jsMod (h / 60) 2 = h / 60 - 4 := jsMod_two_sub_four hh0 (by linarith)
  simp only [sectorPre, hmod, hmod2]
  rw [if_neg (by rintro ⟨-, hx⟩; linarith), if_neg (by rintro ⟨-, hx⟩; linarith),
    if_neg (by rintro ⟨-, hx⟩; linarith), if_neg (by rintro ⟨-, hx⟩; linarith),
    if_pos ⟨hh0, hh1⟩, abs_of_nonpos (by linarith : h / 60 - 4 - 1 ≤ 0)]
  dsimp only
  simp only [Prod.mk.injEq]
  refine ⟨by ring, by ring, by ring⟩

theorem sectorPre_s5 {h : ℝ} (C m : ℝ) (hl : 300 ≤ h) (hu : h < 360) :
    sectorPre h C m = (C + m, m, C * (6 - h / 60) + m) := by
  have hmod : jsMod h 360 = h := jsMod_self (by norm_num) (by linarith) (by linarith)
  have hh0 : 5 ≤ h / 60 := by rw [le_div_iff (by norm_num : (0 : ℝ) < 60)]; linarith
  have hh1 : h / 60 < 6 := by rw [div_lt_iff (by norm_num : (0 : ℝ) < 60)]; linarith
  have hmod2 : jsMod (h / 60) 2 = h / 60 - 4 := jsMod_two_sub_four (by linarith) hh1
  simp only [sectorPre, hmod, hmod2]
  rw [if_neg (by rintro ⟨-, hx⟩; linarith), if_neg (by rintro ⟨-, hx⟩; linarith),
    if_neg (by rintro ⟨-, hx⟩; linarith), if_neg (by rintro ⟨-, hx⟩; linarith),
    if_neg (by rintro ⟨-, hx⟩; linarith),
    abs_of_nonneg (by linarith : 0 ≤ h / 60 - 4 - 1)]
  dsimp only
  simp only [Prod.mk.injEq]
  refine ⟨by ring, by ring, by ring⟩

/-- The heart of the HSL/HSV round trip: on a chromatic input, the sector
construction applied to the computed hue with chroma `mx - mn` and offset `mn`
reproduces the normalized channels exactly (before rounding). -/
theorem sectorPre_exact (rr gg bb mx mn : ℝ)
    (hmx : mx = max rr (max gg bb)) (hmn : mn = min rr (min gg bb))
    (hne : mx ≠ mn) :
    sectorPre (hueOf rr gg bb) (mx - mn) mn = (rr, gg, bb) := by
  have hrrmx : rr ≤ mx := by rw [hmx]; exact le_max_left _ _
  have hggmx : gg ≤ mx := by rw [hmx]; exact le_trans (le_max_left _ _) (le_max_right _ _)
  have hbbmx : bb ≤ mx := by
    rw [hmx]; exact le_trans (le_max_right _ _) (le_max_right _ _)
  have hmnrr : mn ≤ rr := by rw [hmn]; exact min_le_left _ _
  have hmngg : mn ≤ gg := by
    rw [hmn]; exact le_trans (min_le_right _ _) (min_le_left _ _)
  have hmnbb : mn ≤ bb := by
    rw [hmn]; exact le_trans (min_le_right _ _) (min_le_right _ _)
  have hlt : mn < mx := lt_of_le_of_ne (le_trans hmnrr hrrmx) (Ne.symm hne)
  have hdpos : 0 < mx - mn := by linarith
  have hdne : mx - mn ≠ 0 := ne_of_gt hdpos
  by_cases hA : mx = rr
  · set q := (gg - bb) / (mx - mn) with hq
    have hCq : (mx - mn) * q = gg - bb := by
      rw [hq]
      field_simp
    have hq1 : q ≤ 1 := (div_le_one hdpos).mpr (by linarith)
    have hq2 : -1 ≤ q := by
      have hneg : -q = (bb - gg) / (mx - mn) := by rw [hq]; ring
      have hle : -q ≤ 1 := by rw [hneg]; exact (div_le_one hdpos).mpr (by linarith)
      linarith
    have hmod6 : jsMod q 6 = q := jsMod_self (by norm_num) (by linarith) (by linarith)
    by_cases hgb : bb ≤ gg
    · have hq0 : 0 ≤ q := div_nonneg (by linarith) hdpos.le
      have hmneq : mn = bb := by
        rw [hmn, min_eq_right hgb, min_eq_right (show bb ≤ rr by rw [← hA]; exact hbbmx)]
      have hhue : hueOf rr gg bb = q * 60 := by
        simp only [hueOf]
        rw [← hmx, ← hmn, ← hq, if_neg hdne, if_pos hA, hmod6,
          if_neg (by linarith : ¬(q * 60 < 0))]
      rw [hhue]
      by_cases hqlt : q < 1
      · rw [sectorPre_s0 (mx - mn) mn (by linarith) (by linarith)]
        simp only [Prod.mk.injEq]
        refine ⟨by linarith, ?_, by linarith⟩
        have harith : (mx - mn) * (q * 60 / 60) = (mx - mn) * q := by ring
        linarith [hCq, harith]
      · have hq1' : q = 1 := le_antisymm hq1 (not_lt.mp hqlt)
        have hCq1 : mx - mn = gg - bb := by
          have := hCq
          rw [hq1'] at this
          linarith
        have hggeq : gg = mx := by linarith
        have hbbeq : bb = mn := by linarith
        rw [hq1']
        rw [sectorPre_s1 (mx - mn) mn (by norm_num) (by norm_num)]
        simp only [Prod.mk.injEq]
        have harith : (mx - mn) * (2 - 1 * 60 / 60) = mx - mn := by ring
        refine ⟨by linarith, by linarith, by linarith⟩
    · push_neg at hgb
      have hqneg : q < 0 := div_neg_of_neg_of_pos (by linarith) hdpos
      have hmneq : mn = gg := by
        rw [hmn, min_eq_left hgb.le,
          min_eq_right (show gg ≤ rr by rw [← hA]; exact hggmx)]
      have hhue : hueOf rr gg bb = q * 60 + 360 := by
        simp only [hueOf]
        rw [← hmx, ← hmn, ← hq, if_neg hdne, if_pos hA, hmod6,
          if_pos (by linarith : q * 60 < 0)]
      rw [hhue]
      rw [sectorPre_s5 (mx - mn) mn (by linarith) (by linarith)]
      simp only [Prod.mk.injEq]
      have harith : (mx - mn) * (6 - (q * 60 + 360) / 60) = -((mx - mn) * q) := by ring
      refine ⟨by linarith, by linarith, by linarith [hCq, harith]⟩
  · by_cases hB : mx = gg
    · have hrrlt : rr < mx := lt_of_le_of_ne hrrmx (fun he => hA he.symm)
      set p := (bb - rr) / (mx - mn) with hp
      have hCp : (mx - mn) * p = bb - rr := by
        rw [hp]
        field_simp
      have hp1 : p ≤ 1 := (div_le_one hdpos).mpr (by linarith)
      have hpgt : -1 < p := by
        have hneg : -p = (rr - bb) / (mx - mn) := by rw [hp]; ring
        have hlt2 : -p < 1 := by
          rw [hneg]; exact (div_lt_one hdpos).mpr (by linarith)
        linarith
      have hhue : hueOf rr gg bb = (p + 2) * 60 := by
        simp only [hueOf]
        rw [← hmx, ← hmn, ← hp, if_neg hdne, if_neg hA, if_pos hB,
          if_neg (by linarith : ¬((p + 2) * 60 < 0))]
      rw [hhue]
      by_cases hbr : bb < rr
      · have hpneg : p < 0 := div_neg_of_neg_of_pos (by linarith) hdpos
        have hmneq : mn = bb := by
          rw [hmn, min_eq_right (show bb ≤ gg by rw [← hB]; exact hbbmx),
            min_eq_right hbr.le]
        rw [sectorPre_s1 (mx - mn) mn (by linarith) (by linarith)]
        simp only [Prod.mk.injEq]
        have harith : (mx - mn) * (2 - (p + 2) * 60 / 60) = -((mx - mn) * p) := by ring
        refine ⟨by linarith [hCp, harith], by linarith, by linarith⟩
      · push_neg at hbr
        have hp0 : 0 ≤ p := div_nonneg (by linarith) hdpos.le
        have hmneq : mn = rr := by
          rw [hmn, min_eq_right (show bb ≤ gg by rw [← hB]; exact hbbmx),
            min_eq_left hbr]
        by_cases hplt : p < 1
        · rw [sectorPre_s2 (mx - mn) mn (by linarith) (by linarith)]
          simp only [Prod.mk.injEq]
          have harith : (mx - mn) * ((p + 2) * 60 / 60 - 2) = (mx - mn) * p := by ring
          refine ⟨by linarith, by linarith, by linarith [hCp, harith]⟩
        · have hp1' : p = 1 := le_antisymm hp1 (not_lt.mp hplt)
          have hCp1 : mx - mn = bb - rr := by
            have := hCp
            rw [hp1'] at this
            linarith
          have hbbeq : bb = mx := by linarith
          have hrreq : rr = mn := by linarith
          rw [hp1']
          rw [sectorPre_s3 (mx - mn) mn (by norm_num) (by norm_num)]
          simp only [Prod.mk.injEq]
          have harith : (mx - mn) * (4 - (1 + 2) * 60 / 60) = mx - mn := by ring
          refine ⟨by linarith, by linarith [harith], by linarith⟩
    · have hrrlt : rr < mx := lt_of_le_of_ne hrrmx (fun he => hA he.symm)
      have hgglt : gg < mx := lt_of_le_of_ne hggmx (fun he => hB he.symm)
      have hbbeq : mx = bb := by
        rcases max_choice rr (max gg bb) with h | h
        · exact absurd (hmx.trans h) hA
        · rcases max_choice gg bb with h2 | h2
          · exact absurd (hmx.trans (h.trans h2)) hB
          · exact hmx.trans (h.trans h2)
      set w := (rr - gg) / (mx - mn) with hw
      have hCw : (mx - mn) * w = rr - gg := by
        rw [hw]
        field_simp
      have hwlt : w < 1 := (div_lt_one hdpos).mpr (by linarith)
      have hwgt : -1 < w := by
        have hneg : -w = (gg - rr) / (mx - mn) := by rw [hw]; ring
        have hlt2 : -w < 1 := by
          rw [hneg]; exact (div_lt_one hdpos).mpr (by linarith)
        linarith
      have hhue : hueOf rr gg bb = (w + 4) * 60 := by
        simp only [hueOf]
        rw [← hmx, ← hmn, ← hw, if_neg hdne, if_neg hA, if_neg hB,
          if_neg (by linarith : ¬((w + 4) * 60 < 0))]
      rw [hhue]
      by_cases hrg : rr < gg
      · have hwneg : w < 0 := div_neg_of_neg_of_pos (by linarith) hdpos
        have hmneq : mn = rr := by
          rw [hmn, min_eq_left (show gg ≤ bb by rw [← hbbeq]; exact hggmx),
            min_eq_left hrg.le]
        rw [sectorPre_s3 (mx - mn) mn (by linarith) (by linarith)]
        simp only [Prod.mk.injEq]
        have harith : (mx - mn) * (4 - (w + 4) * 60 / 60) = -((mx - mn) * w) := by ring
        refine ⟨by linarith, by linarith [hCw, harith], by linarith⟩
      · push_neg at hrg
        have hw0 : 0 ≤ w := div_nonneg (by linarith) hdpos.le
        have hmneq : mn = gg := by
          rw [hmn, min_eq_left (show gg ≤ bb by rw [← hbbeq]; exact hggmx),
            min_eq_right hrg]
        rw [sectorPre_s4 (mx - mn) mn (by linarith) (by linarith)]
        simp only [Prod.mk.injEq]
        have harith : (mx - mn) * ((w + 4) * 60 / 60 - 4) = (mx - mn) * w := by ring
        refine ⟨by linarith [hCw, harith], by linarith, by linarith⟩

theorem hslToRgb_eq_sector (h s l C m : ℝ) (hC : (1 - |2 * l - 1|) * s = C)
    (hm : l - C / 2 = m) : hslToRgb h s l = sectorRgb h C m := by
  simp only [hslToRgb]
  rw [hC, hm]

theorem hsvToRgb_eq_sector (h s v C m : ℝ) (hC : v * s = C) (hm : v - C = m) :
    hsvToRgb h s v = sectorRgb h C m := by
  simp only [hsvToRgb]
  rw [hC, hm]

theorem byteOf_byte {n : ℤ} (h0 : 0 ≤ n) (h1 : n ≤ 255) :
    byteOf ((n : ℝ) / 255) = (n : ℝ) := by
  unfold byteOf
  rw [show ((n : ℝ) / 255) * 255 = (n : ℝ) by ring, jsRound_intCast,
    max_eq_right (show (0 : ℝ) ≤ (n : ℝ) by exact_mod_cast h0),
    min_eq_right (show (n : ℝ) ≤ 255 by exact_mod_cast h1)]

/-- The round trips at the level of normalized channels: feeding the HSL (resp.
HSV) components computed by `rgbToHsl` (resp. `rgbToHsv`) back into the sector
construction reproduces each channel exactly up to the final byte rounding. -/
theorem roundtrip_bytes (rr gg bb : ℝ) (h0r : 0 ≤ rr) (h1r : rr ≤ 1)
    (h0g : 0 ≤ gg) (h1g : gg ≤ 1) (h0b : 0 ≤ bb) (h1b : bb ≤ 1) :
    hslToRgb (hueOf rr gg bb)
      (if max rr (max gg bb) - min rr (min gg bb) = 0 then 0
        else (max rr (max gg bb) - min rr (min gg bb)) /
          (1 - |2 * ((max rr (max gg bb) + min rr (min gg bb)) / 2) - 1|))
      ((max rr (max gg bb) + min rr (min gg bb)) / 2) =
        ⟨byteOf rr, byteOf gg, byteOf bb⟩ ∧
    hsvToRgb (hueOf rr gg bb)
      (if max rr (max gg bb) = 0 then 0
        else (max rr (max gg bb) - min rr (min gg bb)) / max rr (max gg bb))
      (max rr (max gg bb)) = ⟨byteOf rr, byteOf gg, byteOf bb⟩ := by
  set mx := max rr (max gg bb) with hmx
  set mn := min rr (min gg bb) with hmn
  have hrrmx : rr ≤ mx := by rw [hmx]; exact le_max_left _ _
  have hggmx : gg ≤ mx := by rw [hmx]; exact le_trans (le_max_left _ _) (le_max_right _ _)
  have hbbmx : bb ≤ mx := by
    rw [hmx]; exact le_trans (le_max_right _ _) (le_max_right _ _)
  have hmnrr : mn ≤ rr := by rw [hmn]; exact min_le_left _ _
  have hmngg : mn ≤ gg := by
    rw [hmn]; exact le_trans (min_le_right _ _) (min_le_left _ _)
  have hmnbb : mn ≤ bb := by
    rw [hmn]; exact le_trans (min_le_right _ _) (min_le_right _ _)
  have hmn0 : 0 ≤ mn := by rw [hmn]; exact le_min h0r (le_min h0g h0b)
  have hmx1 : mx ≤ 1 := by rw [hmx]; exact max_le h1r (max_le h1g h1b)
  by_cases hd : mx - mn = 0
  · have hmxmn : mx = mn := sub_eq_zero.mp hd
    have hrre : rr = mx := le_antisymm hrrmx (by rw [hmxmn]; exact hmnrr)
    have hgge : gg = mx := le_antisymm hggmx (by rw [hmxmn]; exact hmngg)
    have hbbe : bb = mx := le_antisymm hbbmx (by rw [hmxmn]; exact hmnbb)
    have hhue : hueOf rr gg bb = 0 := by
      simp only [hueOf]
      rw [← hmx, ← hmn, if_pos hd]
    constructor
    · rw [hhue, if_pos hd]
      rw [hslToRgb_eq_sector 0 0 ((mx + mn) / 2) 0 ((mx + mn) / 2) (by ring) (by ring)]
      simp only [sectorRgb]
      rw [sectorPre_s0 0 ((mx + mn) / 2) le_rfl (by norm_num)]
      dsimp only
      simp only [RGB.mk.injEq]
      have hz : (0 : ℝ) * (0 / 60) = 0 := by ring
      exact ⟨congrArg byteOf (by linarith), congrArg byteOf (by linarith),
        congrArg byteOf (by linarith)⟩
    · rw [hhue]
      have hs0 : (if mx = (0 : ℝ) then (0 : ℝ) else (mx - mn) / mx) = 0 := by
        split_ifs
        · rfl
        · rw [hd, zero_div]
      rw [hs0]
      rw [hsvToRgb_eq_sector 0 0 mx 0 mx (by ring) (by ring)]
      simp only [sectorRgb]
      rw [sectorPre_s0 0 mx le_rfl (by norm_num)]
      dsimp only
      simp only [RGB.mk.injEq]
      have hz : (0 : ℝ) * (0 / 60) = 0 := by ring
      exact ⟨congrArg byteOf (by linarith), congrArg byteOf (by linarith),
        congrArg byteOf (by linarith)⟩
  · have hne : mx ≠ mn := sub_ne_zero.mp hd
    have hlt : mn < mx := lt_of_le_of_ne (le_trans hmnrr hrrmx) (Ne.symm hne)
    have hmxpos : 0 < mx := lt_of_le_of_lt hmn0 hlt
    have habs : |mx + mn - 1| < 1 := by
      rw [abs_lt]
      constructor <;> linarith
    constructor
    · rw [if_neg hd]
      have hC : (1 - |2 * ((mx + mn) / 2) - 1|) *
          ((mx - mn) / (1 - |2 * ((mx + mn) / 2) - 1|)) = mx - mn := by
        rw [show (2 : ℝ) * ((mx + mn) / 2) - 1 = mx + mn - 1 by ring]
        have hdenne : 1 - |mx + mn - 1| ≠ 0 := ne_of_gt (by linarith)
        field_simp
      have hm2 : (mx + mn) / 2 - (mx - mn) / 2 = mn := by ring
      rw [hslToRgb_eq_sector (hueOf rr gg bb) _ _ (mx - mn) mn hC hm2]
      simp only [sectorRgb, sectorPre_exact rr gg bb mx mn hmx hmn hne]
    · have hmx0 : mx ≠ 0 := ne_of_gt hmxpos
      rw [if_neg hmx0]
      have hCv : mx * ((mx - mn) / mx) = mx - mn := by field_simp
      have hmv : mx - (mx - mn) = mn := by ring
      rw [hsvToRgb_eq_sector (hueOf rr gg bb) _ _ (mx - mn) mn hCv hmv]
      simp only [sectorRgb, sectorPre_exact rr gg bb mx mn hmx hmn hne]

/-- C1: for every RGB triple with integer channels in [0,255], the round trip
RGB→HSL→RGB through `rgbToHsl`/`hslToRgb` reproduces each channel within ±1,
and likewise RGB→HSV→RGB through `rgbToHsv`/`hsvToRgb` (both trips are in fact
exact in real arithmetic). -/
theorem rgb_hsl_hsv_roundtrip (r g b : ℤ)
    (h0r : 0 ≤ r) (h1r : r ≤ 255) (h0g : 0 ≤ g) (h1g : g ≤ 255)
    (h0b : 0 ≤ b) (h1b : b ≤ 255) :
    (|(hslToRgb (rgbToHsl (r : ℝ) (g : ℝ) (b : ℝ)).h (rgbToHsl (r : ℝ) (g : ℝ) (b : ℝ)).s
        (rgbToHsl (r : ℝ) (g : ℝ) (b : ℝ)).l).r - (r : ℝ)| ≤ 1 ∧
      |(hslToRgb (rgbToHsl (r : ℝ) (g : ℝ) (b : ℝ)).h (rgbToHsl (r : ℝ) (g : ℝ) (b : ℝ)).s
        (rgbToHsl (r : ℝ) (g : ℝ) (b : ℝ)).l).g - (g : ℝ)| ≤ 1 ∧
      |(hslToRgb (rgbToHsl (r : ℝ) (g : ℝ) (b : ℝ)).h (rgbToHsl (r : ℝ) (g : ℝ) (b : ℝ)).s
        (rgbToHsl (r : ℝ) (g : ℝ) (b : ℝ)).l).b - (b : ℝ)| ≤ 1) ∧
    (|(hsvToRgb (rgbToHsv (r : ℝ) (g : ℝ) (b : ℝ)).h (rgbToHsv (r : ℝ) (g : ℝ) (b : ℝ)).s
        (rgbToHsv (r : ℝ) (g : ℝ) (b : ℝ)).v).r - (r : ℝ)| ≤ 1 ∧
      |(hsvToRgb (rgbToHsv (r : ℝ) (g : ℝ) (b : ℝ)).h (rgbToHsv (r : ℝ) (g : ℝ) (b : ℝ)).s
        (rgbToHsv (r : ℝ) (g : ℝ) (b : ℝ)).v).g - (g : ℝ)| ≤ 1 ∧
      |(hsvToRgb (rgbToHsv (r : ℝ) (g : ℝ) (b : ℝ)).h (rgbToHsv (r : ℝ) (g : ℝ) (b : ℝ)).s
        (rgbToHsv (r : ℝ) (g : ℝ) (b : ℝ)).v).b - (b : ℝ)| ≤ 1) := by
  have h255 : (0 : ℝ) < 255 := by norm_num
  have hb := roundtrip_bytes ((r : ℝ) / 255) ((g : ℝ) / 255) ((b : ℝ) / 255)
    (div_nonneg (by exact_mod_cast h0r) h255.le)
    ((div_le_one h255).mpr (by exact_mod_cast h1r))
    (div_nonneg (by exact_mod_cast h0g) h255.le)
    ((div_le_one h255).mpr (by exact_mod_cast h1g))
    (div_nonneg (by exact_mod_cast h0b) h255.le)
    ((div_le_one h255).mpr (by exact_mod_cast h1b))
  have hhsl : hslToRgb (rgbToHsl (r : ℝ) (g : ℝ) (b : ℝ)).h
      (rgbToHsl (r : ℝ) (g : ℝ) (b : ℝ)).s (rgbToHsl (r : ℝ) (g : ℝ) (b : ℝ)).l =
      ⟨(r : ℝ), (g : ℝ), (b : ℝ)⟩ := by
    simp only [rgbToHsl]
    rw [hb.1, byteOf_byte h0r h1r, byteOf_byte h0g h1g, byteOf_byte h0b h1b]
  have hhsv : hsvToRgb (rgbToHsv (r : ℝ) (g : ℝ) (b : ℝ)).h
      (rgbToHsv (r : ℝ) (g : ℝ) (b : ℝ)).s (rgbToHsv (r : ℝ) (g : ℝ) (b : ℝ)).v =
      ⟨(r : ℝ), (g : ℝ), (b : ℝ)⟩ := by
    simp only [rgbToHsv]
    rw [hb.2, byteOf_byte h0r h1r, byteOf_byte h0g h1g, byteOf_byte h0b h1b]
  rw [hhsl, hhsv]
  dsimp only
  norm_num

/-- C1 witness: the round trips at the concrete triple (12, 200, 7). -/
theorem rgb_hsl_hsv_roundtrip_witness :
    (|(hslToRgb (rgbToHsl (12 : ℝ) 200 7).h (rgbToHsl (12 : ℝ) 200 7).s
        (rgbToHsl (12 : ℝ) 200 7).l).r - 12| ≤ 1 ∧
      |(hslToRgb (rgbToHsl (12 : ℝ) 200 7).h (rgbToHsl (12 : ℝ) 200 7).s
        (rgbToHsl (12 : ℝ) 200 7).l).g - 200| ≤ 1 ∧
      |(hslToRgb (rgbToHsl (12 : ℝ) 200 7).h (rgbToHsl (12 : ℝ) 200 7).s
        (rgbToHsl (12 : ℝ) 200 7).l).b - 7| ≤ 1) ∧
    (|(hsvToRgb (rgbToHsv (12 : ℝ) 200 7).h (rgbToHsv (12 : ℝ) 200 7).s
        (rgbToHsv (12 : ℝ) 200 7).v).r - 12| ≤ 1 ∧
      |(hsvToRgb (rgbToHsv (12 : ℝ) 200 7).h (rgbToHsv (12 : ℝ) 200 7).s
        (rgbToHsv (12 : ℝ) 200 7).v).g - 200| ≤ 1 ∧
      |(hsvToRgb (rgbToHsv (12 : ℝ) 200 7).h (rgbToHsv (12 : ℝ) 200 7).s
        (rgbToHsv (12 : ℝ) 200 7).v).b - 7| ≤ 1) := by
  have h := rgb_hsl_hsv_roundtrip 12 200 7 (by decide) (by decide) (by decide)
    (by decide) (by decide) (by decide)
  push_cast at h
  exact h

end
